import Mathlib

/-!
Verification of the CinemaCal extraction-and-reconciliation pipeline.

Shallow embedding of the repository's data model and core operations:
`src/models.py` (Screening, ScraperConfig), `src/scrapers/base.py`
(parse_runtime, extract_special_attributes, date utilities),
`src/ui/webapp/tasks.py` (double-feature merge, cross-source
deduplication, job orchestration), and the per-source year-rollover
logic of `src/scrapers/{brattle,screen_boston,harvard_film_archive}.py`,
plus the Coolidge past-showtime filter of `src/scrapers/coolidge.py`.

Python strings are modelled as Lean `String` (or `List Char` where the
code scans character by character), Python `date`/`time` objects as
records of numeric fields compared lexicographically (which agrees with
Python's chronological comparison on valid values), Python `dict`s as
insertion-ordered association lists, and Python `None`-able values as
`Option`.
-/

namespace CinemaCal

/-- Calendar date, as Python's `datetime.date`: year, month, day.
Python compares dates chronologically, which on valid dates is the
lexicographic order on (year, month, day). -/
structure Date where
  year : Nat
  month : Nat
  day : Nat
deriving DecidableEq, Repr

/-- Wall-clock time, as Python's `datetime.time` (microseconds are never
set by the parsers, so they are omitted). -/
structure Time where
  hour : Nat
  minute : Nat
  second : Nat
deriving DecidableEq, Repr

/-- Lexicographic `≤` on equal-length lists of naturals; used to model
Python's tuple comparison on numeric tuples. -/
def natsLe : List Nat → List Nat → Bool
  | [], _ => true
  | _ :: _, [] => true
  | a :: as, b :: bs =>
    if a < b then true
    else if b < a then false
    else natsLe as bs

/-- Strict lexicographic `<` on equal-length lists of naturals. -/
def natsLt : List Nat → List Nat → Bool
  | [], _ => false
  | _ :: _, [] => false
  | a :: as, b :: bs =>
    if a < b then true
    else if b < a then false
    else natsLt as bs

def Date.toNats (d : Date) : List Nat := [d.year, d.month, d.day]

/-- Python `date` comparison `d1 <= d2` (chronological = lexicographic). -/
def dateLe (a b : Date) : Bool := natsLe a.toNats b.toNats

def Time.toNats (t : Time) : List Nat := [t.hour, t.minute, t.second]

/-- The screening record of `src/models.py` (`@dataclass Screening`). -/
structure Screening where
  title : String
  venue : String
  date : Date
  time : Time
  source_url : String
  source_site : String
  runtime_minutes : Option Nat := none
  director : Option String := none
  year : Option Nat := none
  extra : Option String := none
  special_attributes : Option (List String) := none
deriving DecidableEq, Repr

/-- `Screening.datetime_start` (`src/models.py` lines 26-29):
`datetime.combine(self.date, self.time)`, modelled as the pair. -/
def Screening.datetime_start (s : Screening) : Date × Time := (s.date, s.time)

/-- Python `datetime` strict comparison `a < b` on combined date-times. -/
def dtLt (a b : Date × Time) : Bool :=
  natsLt (a.1.toNats ++ a.2.toNats) (b.1.toNats ++ b.2.toNats)

/-- Sort key comparison for `screenings.sort(key=lambda s: (s.date, s.time))`
(`src/ui/webapp/tasks.py` line 342). -/
def dtLe (a b : Screening) : Bool :=
  natsLe (a.date.toNats ++ a.time.toNats) (b.date.toNats ++ b.time.toNats)

def pad2 (n : Nat) : String := if n < 10 then "0" ++ toString n else toString n

def pad4 (n : Nat) : String :=
  if n < 10 then "000" ++ toString n
  else if n < 100 then "00" ++ toString n
  else if n < 1000 then "0" ++ toString n
  else toString n

/-- Python `str(date)`: ISO format `YYYY-MM-DD`. -/
def Date.iso (d : Date) : String :=
  pad4 d.year ++ "-" ++ pad2 d.month ++ "-" ++ pad2 d.day

/-- Python `str(time)`: `HH:MM:SS` (microseconds zero in this codebase). -/
def Time.str (t : Time) : String :=
  pad2 t.hour ++ ":" ++ pad2 t.minute ++ ":" ++ pad2 t.second

/-- The md5 preimage of `Screening.unique_id` (`src/models.py` lines 37-41):
`f"{self.title}|{self.venue}|{self.date}|{self.time}"`. The identity hash
is md5 of this string (md5 itself is a fixed pure function of the string,
so equal key strings give equal `unique_id`s). -/
def uniqueIdKey (s : Screening) : String :=
  s.title ++ "|" ++ s.venue ++ "|" ++ s.date.iso ++ "|" ++ s.time.str

/-- `Screening.__eq__` (`src/models.py` lines 55-61). -/
def pyEq (a b : Screening) : Bool :=
  a.title == b.title && a.venue == b.venue && a.date == b.date && a.time == b.time

/-- The tuple hashed by `Screening.__hash__` (`src/models.py` lines 52-53):
`hash((self.title, self.venue, self.date, self.time))`. -/
def hashKey (s : Screening) : String × String × Date × Time :=
  (s.title, s.venue, s.date, s.time)

/-! ### Character-list string utilities

The scrapers scan lowercased text with Python's `in` substring operator
and simple regexes; we model the text as `List Char`. -/

/-- Boolean prefix test on character lists (Python `str.startswith` /
the anchored part of a substring search). -/
def isPre : List Char → List Char → Bool
  | [], _ => true
  | _ :: _, [] => false
  | a :: as, b :: bs => a == b && isPre as bs

/-- Boolean contiguous-substring test: `containsSeq needle hay` models
Python's `needle in hay` on strings. -/
def containsSeq (needle : List Char) : List Char → Bool
  | [] => needle.isEmpty
  | c :: rest => isPre needle (c :: rest) || containsSeq needle rest

/-- `hasSub pat t` models Python `pat in t` for a string literal pattern. -/
def hasSub (pat : String) (t : List Char) : Bool := containsSeq pat.toList t

/-- Python `str.strip()` on a character list (strip whitespace both ends). -/
def stripChars (l : List Char) : List Char :=
  ((l.dropWhile Char.isWhitespace).reverse.dropWhile Char.isWhitespace).reverse

/-- Python `str.lower()` on a character list (ASCII, which covers all
patterns the code matches against). -/
def lowerChars (l : List Char) : List Char := l.map Char.toLower

/-! ### Order-preserving deduplication

Python's `list(dict.fromkeys(xs))` and the seen-set loops in the code
all deduplicate preserving first occurrence; this is the shared model. -/

def pyDedupAux {α : Type} [DecidableEq α] (seen : List α) : List α → List α
  | [] => []
  | a :: rest =>
    if a ∈ seen then pyDedupAux seen rest else a :: pyDedupAux (a :: seen) rest

/-- First-occurrence-preserving deduplication: models
`list(dict.fromkeys(xs))` (tasks.py line 131/194) and the
seen-set loop of `extract_special_attributes` (base.py lines 169-176). -/
def pyDedup {α : Type} [DecidableEq α] (l : List α) : List α := pyDedupAux [] l

/-! ### Attribute Normalizer (`extract_special_attributes`, base.py 120-176)

The source is a fixed sequence of case-insensitive substring checks, each
appending one canonical tag, followed by an order-preserving seen-set
deduplication. Each `attrStepN` below is one `if` statement of the
source, in source order. -/

def attrs1 (t : List Char) : List String :=
  if hasSub "35mm" t then [] ++ ["35mm"] else []

def attrs2 (t : List Char) : List String :=
  if hasSub "70mm" t then attrs1 t ++ ["70mm"] else attrs1 t

def attrs3 (t : List Char) : List String :=
  if hasSub "16mm" t then attrs2 t ++ ["16mm"] else attrs2 t

def attrs4 (t : List Char) : List String :=
  if hasSub "screening on film" t then attrs3 t ++ ["Screening on film"] else attrs3 t

def attrs5 (t : List Char) : List String :=
  if hasSub "screening on 35mm" t || hasSub "35mm / dcp" t then
    (if (attrs4 t).contains "35mm" then attrs4 t else attrs4 t ++ ["35mm"])
  else attrs4 t

def attrs6 (t : List Char) : List String :=
  if hasSub "screening on 16mm" t || hasSub "16mm / dcp" t then
    (if (attrs5 t).contains "16mm" then attrs5 t else attrs5 t ++ ["16mm"])
  else attrs5 t

def attrs7 (t : List Char) : List String :=
  if hasSub "panel discussion" t then attrs6 t ++ ["Panel discussion"] else attrs6 t

def attrs8 (t : List Char) : List String :=
  if hasSub "q&a" t || hasSub "q and a" t then attrs7 t ++ ["Q&A"] else attrs7 t

def attrs9 (t : List Char) : List String :=
  if hasSub "director in person" t || hasSub "director in-person" t
      || hasSub "in person" t then
    attrs8 t ++ ["Director in person"]
  else attrs8 t

def attrs10 (t : List Char) : List String :=
  if hasSub "live musical accompaniment" t then
    attrs9 t ++ ["Live musical accompaniment"]
  else attrs9 t

def attrs11 (t : List Char) : List String :=
  if hasSub "double feature" t then attrs10 t ++ ["Double feature"] else attrs10 t

def attrs12 (t : List Char) : List String :=
  if hasSub "premiere" t then attrs11 t ++ ["Premiere"] else attrs11 t

def attrs13 (t : List Char) : List String :=
  if hasSub "new release" t then attrs12 t ++ ["New Release"] else attrs12 t

def attrs14 (t : List Char) : List String :=
  if hasSub "spotlight on women" t then attrs13 t ++ ["Spotlight on Women"] else attrs13 t

def attrs15 (t : List Char) : List String :=
  if hasSub "sing-along" t || hasSub "sing along" t then
    attrs14 t ++ ["Sing-along"]
  else attrs14 t

def attrs16 (t : List Char) : List String :=
  if hasSub "discussion" t && !((attrs15 t).contains "Panel discussion") then
    attrs15 t ++ ["Discussion"]
  else attrs15 t

def attrs17 (t : List Char) : List String :=
  if hasSub "seminar" t then attrs16 t ++ ["Seminar"] else attrs16 t

/-- `extract_special_attributes` (base.py lines 120-176): lowercase the
text, run the rule table, deduplicate preserving first-seen order. -/
def extract_special_attributes (text : List Char) : List String :=
  if text.isEmpty then [] else pyDedup (attrs17 (lowerChars text))

/-- The fixed rule table of canonical tags, in source (first-match) order. -/
def ATTR_TABLE : List String :=
  ["35mm", "70mm", "16mm", "Screening on film", "Panel discussion", "Q&A",
   "Director in person", "Live musical accompaniment", "Double feature",
   "Premiere", "New Release", "Spotlight on Women", "Sing-along",
   "Discussion", "Seminar"]

/-! ### Shared runtime parser (`parse_runtime`, base.py 92-117) -/

/-- Leading maximal digit run of a character list, with the remainder
(the `(\d+)` capture at a match position). -/
def takeDigits : List Char → List Char × List Char
  | [] => ([], [])
  | c :: rest =>
    if c.isDigit then
      let p := takeDigits rest
      (c :: p.1, p.2)
    else ([], c :: rest)

/-- Decimal value of a digit run (`int(...)` on the capture). -/
def digitsVal (ds : List Char) : Nat :=
  ds.foldl (fun a c => a * 10 + (c.toNat - '0'.toNat)) 0

/-- Leftmost match of the regex `(\d+)\s*X` for a fixed letter `X`
(`re.search(r"(\d+)\s*h", ...)` / `re.search(r"(\d+)\s*m", ...)`):
scan for a digit run followed by optional whitespace and the target
letter, returning the run's value. -/
def searchNumThen (target : Char) : List Char → Option Nat
  | [] => none
  | c :: rest =>
    if c.isDigit then
      let p := takeDigits (c :: rest)
      match p.2.dropWhile Char.isWhitespace with
      | t :: _ =>
        if t == target then some (digitsVal p.1) else searchNumThen target rest
      | [] => searchNumThen target rest
    else searchNumThen target rest

/-- The anchored match `re.search(r"^(\d+)", ...)`: a leading digit run. -/
def leadingNum (t : List Char) : Option Nat :=
  match t with
  | [] => none
  | c :: _ => if c.isDigit then some (digitsVal (takeDigits t).1) else none

/-- `parse_runtime` (base.py lines 92-117): lowercase and strip, add
60 × the hours match and the minutes match, fall back to a leading plain
number when both were absent or zero, and return `None` unless the total
is strictly positive. -/
def parse_runtime (s : List Char) : Option Nat :=
  let t := stripChars (lowerChars s)
  let hoursPart := match searchNumThen 'h' t with
    | some n => n * 60
    | none => 0
  let total := hoursPart + (match searchNumThen 'm' t with
    | some n => n
    | none => 0)
  let total := if total = 0 then
      (match leadingNum t with
        | some n => n
        | none => 0)
    else total
  if 0 < total then some total else none

/-! ### Insertion-ordered association lists

Python `dict`s preserve insertion order; assigning to an existing key
replaces the value in place. Used for `key_to_list` (tasks.py 161-164)
and `seen` (tasks.py 258). -/

def lookupA {K V : Type} [DecidableEq K] : List (K × V) → K → Option V
  | [], _ => none
  | (k', v) :: rest, k => if k' = k then some v else lookupA rest k

def updateA {K V : Type} [DecidableEq K] : List (K × V) → K → V → List (K × V)
  | [], _, _ => []
  | (k', v) :: rest, k, w =>
    if k' = k then (k', w) :: rest else (k', v) :: updateA rest k w

/-! ### Reconciler (`src/ui/webapp/tasks.py`) -/

/-- The keys of `VENUE_ADDRESSES` (`src/models.py` lines 100-108), in
dict order. `_canonical_venue` iterates over them. -/
def VENUE_NAMES : List String :=
  ["The Brattle", "Coolidge Corner Theatre", "Harvard Film Archive",
   "Somerville Theatre", "West Newton Cinema", "Museum of Fine Arts",
   "Capitol Theatre"]

/-- `_canonical_venue` (tasks.py lines 101-109): map a venue string to
the first known venue name whose lowercase form contains, or is
contained in, the lowercased stripped input. -/
def canonical_venue (venue : String) : String :=
  if venue = "" then venue
  else
    let vLower := stripChars (lowerChars venue.toList)
    match VENUE_NAMES.find? (fun name =>
        containsSeq (lowerChars name.toList) vLower
        || containsSeq vLower (lowerChars name.toList)) with
    | some name => name
    | none => venue

/-- Python truthiness filter for optional strings: `if d` keeps a string
only when it is non-`None` and non-empty. -/
def truthyStr (o : Option String) : Option String :=
  match o with
  | some s => if s = "" then none else some s
  | none => none

/-- Python truthiness for an optional list: `if s.special_attributes`
yields the list only when non-`None` and non-empty; extending by the
empty list is a no-op, so this is the contributed segment. -/
def specialList (s : Screening) : List String :=
  match s.special_attributes with
  | some l => l
  | none => []

/-- `_merge_two_screenings` (tasks.py lines 112-144). -/
def merge_two_screenings (first second : Screening) : Screening :=
  let titles := [first.title, second.title]
  let combined_title := String.intercalate " + " titles
  let directors : List String := [first.director, second.director].filterMap truthyStr
  let combined_director : Option String :=
    match directors with
    | [] => none
    | d :: ds =>
      if ((d :: ds).toFinset.card = 1) then some d
      else some (String.intercalate " + " (d :: ds))
  let runtimes : List Nat := [first.runtime_minutes, second.runtime_minutes].filterMap (fun r => r)
  let combined_runtime : Option Nat := if runtimes = [] then none else some runtimes.sum
  let extras : List String := [first.extra, second.extra].filterMap truthyStr
  let combined_extra : Option String :=
    if extras = [] then none else some (String.intercalate ", " extras)
  let all_special := [first, second].flatMap specialList
  let combined_special : Option (List String) :=
    if all_special = [] then none else some (pyDedup all_special)
  { title := combined_title, venue := first.venue, date := first.date,
    time := first.time, source_url := first.source_url,
    source_site := first.source_site, runtime_minutes := combined_runtime,
    director := combined_director, year := first.year,
    extra := combined_extra, special_attributes := combined_special }

/-- The merge of a same-slot group of size > 1 with distinct titles
(`_merge_double_screenings` pass 1 body, tasks.py lines 177-208). The
group is `first :: rest` (the code indexes `group[0]`). -/
def mergeGroup (first : Screening) (rest : List Screening) : Screening :=
  let group := first :: rest
  let combined_title := String.intercalate " + " (group.map (fun s => s.title))
  let directors : List String := group.filterMap (fun s => truthyStr s.director)
  let combined_director : Option String :=
    match directors with
    | [] => none
    | d :: ds =>
      if ((d :: ds).toFinset.card = 1) then some d
      else some (String.intercalate " + " (d :: ds))
  let runtimes : List Nat := group.filterMap (fun s => s.runtime_minutes)
  let combined_runtime : Option Nat := if runtimes = [] then none else some runtimes.sum
  let extras : List String := group.filterMap (fun s => truthyStr s.extra)
  let combined_extra : Option String :=
    if extras = [] then none else some (String.intercalate ", " extras)
  let all_special := group.flatMap specialList
  let combined_special : Option (List String) :=
    if all_special = [] then none else some (pyDedup all_special)
  { title := combined_title, venue := first.venue, date := first.date,
    time := first.time, source_url := first.source_url,
    source_site := first.source_site, runtime_minutes := combined_runtime,
    director := combined_director, year := first.year,
    extra := combined_extra, special_attributes := combined_special }

/-- Grouping key of Stage A: (canonical venue, date, time). -/
abbrev GroupKey := String × Date × Time

/-- One step of building `key_to_list` (tasks.py lines 161-164); a
group is stored as head plus tail so it is never empty. -/
def addToGroups (groups : List (GroupKey × (Screening × List Screening)))
    (s : Screening) : List (GroupKey × (Screening × List Screening)) :=
  let k : GroupKey := (canonical_venue s.venue, s.date, s.time)
  match lookupA groups k with
  | none => groups ++ [(k, (s, []))]
  | some g => updateA groups k (g.1, g.2 ++ [s])

/-- Pass 1 of `_merge_double_screenings` (tasks.py lines 160-208):
group by (canonical venue, date, time); singleton groups and groups with
a single distinct title keep their first element, others merge. -/
def pass1 (ss : List Screening) : List Screening :=
  (ss.foldl addToGroups []).map (fun g =>
    let first := g.2.1
    let rest := g.2.2
    if rest = [] then first
    else if (((first :: rest).map (fun s => s.title)).toFinset.card = 1) then first
    else mergeGroup first rest)

/-- Lexicographic `<` on character lists by code point (Python string
comparison). -/
def charsLt : List Char → List Char → Bool
  | [], [] => false
  | [], _ :: _ => true
  | _ :: _, [] => false
  | a :: as, b :: bs =>
    if a.toNat < b.toNat then true
    else if b.toNat < a.toNat then false
    else charsLt as bs

/-- Sort key comparison for
`result.sort(key=lambda s: (_canonical_venue(s.venue), s.date, s.time))`
(tasks.py line 212). -/
def venueDateTimeLe (a b : Screening) : Bool :=
  let ca := (canonical_venue a.venue).toList
  let cb := (canonical_venue b.venue).toList
  if charsLt ca cb then true
  else if charsLt cb ca then false
  else natsLe (a.date.toNats ++ a.time.toNats) (b.date.toNats ++ b.time.toNats)

/-- Pass 2 of `_merge_double_screenings` (tasks.py lines 210-233): after
sorting, a record still tagged "Double feature" merges with its
immediate successor when that successor shares (canonical venue, date). -/
def pass2 : List Screening → List Screening
  | [] => []
  | [s] => [s]
  | s :: nxt :: rest2 =>
    let has_double := (specialList s).contains "Double feature"
    if has_double && (canonical_venue nxt.venue == canonical_venue s.venue)
        && (nxt.date == s.date) then
      merge_two_screenings s nxt :: pass2 rest2
    else
      s :: pass2 (nxt :: rest2)

/-- `_merge_double_screenings` (tasks.py lines 147-234): pass 1, then the
stable sort by (canonical venue, date, time), then pass 2. -/
def merge_double_screenings (ss : List Screening) : List Screening :=
  pass2 ((pass1 ss).mergeSort venueDateTimeLe)

/-- Stage C deduplication key: the exact (title, venue, date, time)
(tasks.py line 261). -/
abbrev DedupKey := String × String × Date × Time

def dedupKey (s : Screening) : DedupKey := (s.title, s.venue, s.date, s.time)

/-- `venue_to_preferred_site` (tasks.py lines 251-255). -/
def venue_to_preferred_site (venue : String) : Option String :=
  if venue = "Coolidge Corner Theatre" then some "Coolidge"
  else if venue = "The Brattle" then some "Brattle"
  else if venue = "Harvard Film Archive" then some "Harvard Film Archive"
  else none

/-- One iteration of the `_deduplicate_screenings` loop
(tasks.py lines 260-285). -/
def dedupStep (seen : List (DedupKey × Screening)) (s : Screening) :
    List (DedupKey × Screening) :=
  let k := dedupKey s
  match lookupA seen k with
  | none => seen ++ [(k, s)]
  | some existing =>
    if existing.source_site == s.source_site then seen
    else if some s.source_site == venue_to_preferred_site s.venue then
      updateA seen k s
    else if existing.source_site == "Screen Boston"
        && s.source_site != "Screen Boston" then
      updateA seen k s
    else seen

/-- `_deduplicate_screenings` (tasks.py lines 237-287). -/
def deduplicate_screenings (ss : List Screening) : List Screening :=
  (ss.foldl dedupStep []).map (fun p => p.2)

/-- The reconciliation tail of `_do_scrape` (tasks.py lines 331-342):
double-feature merge, deduplication, then the stable sort by
(date, time). -/
def pipeline_screenings (ss : List Screening) : List Screening :=
  (deduplicate_screenings (merge_double_screenings ss)).mergeSort dtLe

/-- Candidate "A" of the C1 scenario: runtime 90, at The Brattle
2025-06-01 19:00. -/
def candA : Screening :=
  { title := "A", venue := "The Brattle", date := ⟨2025, 6, 1⟩,
    time := ⟨19, 0, 0⟩, source_url := "https://brattle/a",
    source_site := "Brattle", runtime_minutes := some 90 }

/-- Candidate "B" of the C1 scenario: runtime 100, same slot. -/
def candB : Screening :=
  { title := "B", venue := "The Brattle", date := ⟨2025, 6, 1⟩,
    time := ⟨19, 0, 0⟩, source_url := "https://brattle/b",
    source_site := "Brattle", runtime_minutes := some 100 }

/-! ### Deduplication invariants -/

/-- Every stored screening sits under its own key. -/
def KeyConsistent (m : List (DedupKey × Screening)) : Prop :=
  ∀ p ∈ m, dedupKey p.2 = p.1

/-- The C2 scenario candidate from the venue's own site. -/
def duneCoolidge : Screening :=
  { title := "Dune", venue := "Coolidge Corner Theatre", date := ⟨2025, 6, 1⟩,
    time := ⟨19, 0, 0⟩, source_url := "https://coolidge.org/dune",
    source_site := "Coolidge" }

/-- The C2 scenario candidate from the aggregator. -/
def duneSB : Screening :=
  { title := "Dune", venue := "Coolidge Corner Theatre", date := ⟨2025, 6, 1⟩,
    time := ⟨19, 0, 0⟩, source_url := "https://screenboston.com/dune",
    source_site := "Screen Boston" }

/-- A second aggregator candidate with the same key and source site. -/
def duneSB2 : Screening :=
  { title := "Dune", venue := "Coolidge Corner Theatre", date := ⟨2025, 6, 1⟩,
    time := ⟨19, 0, 0⟩, source_url := "https://screenboston.com/dune-2",
    source_site := "Screen Boston" }

/-! ### Job orchestration (`src/ui/webapp/tasks.py` lines 55-67, 290-356,
371-405) -/

/-- `JobStatus` (tasks.py lines 55-67). -/
structure JobStatus where
  job_id : String
  status : String
  progress : Nat
  message : String
  screenings : List Screening
  error : Option String
deriving DecidableEq, Repr

/-- The dict produced by `serialize_screening` (tasks.py lines 371-386);
`unique_id_key` is the md5 preimage of the serialized `unique_id`. -/
structure SerializedScreening where
  title : String
  venue : String
  date : String
  time : String
  source_url : String
  source_site : String
  runtime_minutes : Option Nat
  director : Option String
  year : Option Nat
  extra : Option String
  special_attributes : List String
  unique_id_key : String
deriving DecidableEq, Repr

def serialize_screening (s : Screening) : SerializedScreening :=
  { title := s.title, venue := s.venue, date := s.date.iso,
    time := s.time.str, source_url := s.source_url,
    source_site := s.source_site, runtime_minutes := s.runtime_minutes,
    director := s.director, year := s.year, extra := s.extra,
    special_attributes := s.special_attributes.getD [],
    unique_id_key := uniqueIdKey s }

/-- The dict produced by `serialize_job_status` (tasks.py lines 389-405);
`none` for `error`/`screenings`/`count` models absence of the key. -/
structure SerializedJobStatus where
  job_id : String
  status : String
  progress : Nat
  message : String
  error : Option String
  screenings : Option (List SerializedScreening)
  count : Option Nat
deriving DecidableEq, Repr

/-- `serialize_job_status` (tasks.py lines 389-405): the `screenings`
and `count` keys are added only when `job.status == "complete"` and the
list is non-empty (Python truthiness); `error` only when truthy. -/
def serialize_job_status (job : JobStatus) : SerializedJobStatus :=
  { job_id := job.job_id, status := job.status, progress := job.progress,
    message := job.message,
    error := truthyStr job.error,
    screenings :=
      if job.status = "complete" ∧ job.screenings ≠ [] then
        some (job.screenings.map serialize_screening)
      else none,
    count :=
      if job.status = "complete" ∧ job.screenings ≠ [] then
        some job.screenings.length
      else none }

/-- `_do_scrape` (tasks.py lines 290-356) as a function of the outcome
of its `try` body: the job is moved to "running", then either the
reconciled list completes the job, or the escaped exception text `e`
moves it to "error" (`except Exception as e:` lines 352-356). Per-source
exceptions are caught inside the body (lines 327-329) and are not part
of this outcome. -/
def run_do_scrape (job : JobStatus)
    (pipeline : Except String (List Screening)) : JobStatus :=
  let job : JobStatus := { job with
    status := "running"
    progress := 0
    message := "Initializing scrapers..." }
  match pipeline with
  | Except.ok ss =>
    { job with
      status := "complete"
      progress := 100
      message := "Found " ++ toString ss.length ++ " screenings"
      screenings := ss }
  | Except.error e =>
    { job with
      status := "error"
      error := some e
      message := "Error: " ++ e }

/-! ### Coolidge past-showtime filter (`src/scrapers/coolidge.py`
lines 165-185 and 278-298) -/

/-- The construction-and-filter loops of `_parse_film_section` and
`_parse_text_based`: each candidate screening is paired with the
`datetime.now()` reading in scope when it was constructed, and is kept
only if its start is strictly after that reading
(`if screening.datetime_start > now`). -/
def coolidge_keep_future (cands : List (Screening × (Date × Time))) :
    List Screening :=
  cands.foldr
    (fun p acc => if dtLt p.2 p.1.datetime_start then p.1 :: acc else acc) []

/-! ### Calendar arithmetic and per-source year rollover -/

/-- Gregorian leap-year test (the validity rule of Python's
`datetime.date`). -/
def isLeap (y : Nat) : Bool :=
  y % 4 == 0 && (y % 100 != 0 || y % 400 == 0)

/-- Days in a month (Python `datetime.date` validity). -/
def daysInMonth (y m : Nat) : Nat :=
  if m = 2 then (if isLeap y then 29 else 28)
  else if m = 4 ∨ m = 6 ∨ m = 9 ∨ m = 11 then 30
  else 31

/-- Whether `date(y, m, d)` constructs without raising `ValueError`. -/
def dateValid (y m d : Nat) : Bool :=
  decide (1 ≤ m ∧ m ≤ 12 ∧ 1 ≤ d ∧ d ≤ daysInMonth y m)

/-- The shared rollover condition `result.month < today.month - 6`
(brattle.py line 238, screen_boston.py line 78,
harvard_film_archive.py line 140): the resulting month is more than six
months before the current month. Python evaluates it over signed
integers. -/
def rollCond (m todayM : Nat) : Bool :=
  decide ((m : Int) < (todayM : Int) - 6)

/-- `_parse_brattle_date` (brattle.py lines 207-244) for a month/day
header (the year-ambiguous case; "Today" carries no ambiguity and
headers that fail `strptime` yield no date): `strptime` validates the
month/day against its default year 1900, `replace(year=...)` applies the
configured year, then the rollover adds one year. A day valid in 1900
is valid in every year (February caps at 28), so neither `replace`
raises. -/
def brattle_resolve_header (year m d todayM : Nat) : Option Date :=
  if dateValid 1900 m d then
    if rollCond m todayM then some ⟨year + 1, m, d⟩
    else some ⟨year, m, d⟩
  else none

/-- `_parse_screenings` date-header handling of Screen Boston
(screen_boston.py lines 72-79 with `_parse_screen_boston_date`,
lines 123-139): same strptime-against-1900 parse with the configured
year, then the same rollover at the call site. (The fallback formats
carrying an explicit year cannot occur for a string that passed
`_is_date_header`, which requires weekday and month names.) -/
def screen_boston_resolve_header (year m d todayM : Nat) : Option Date :=
  if dateValid 1900 m d then
    if rollCond m todayM then some ⟨year + 1, m, d⟩
    else some ⟨year, m, d⟩
  else none

/-- The day-spot handling of `_parse_calendar_page`
(harvard_film_archive.py lines 130-143): `date(year, m, d)` is
constructed with the configured year inside a `try`; the rollover then
calls `replace(year=year+1)`, and if that raises (Feb 29 of a leap
configured year rolled into a non-leap year) the `except (ValueError,
KeyError): pass` leaves `current_date` at the already-assigned un-rolled
date. -/
def hfa_resolve_day (year m d todayM : Nat) : Option Date :=
  if dateValid year m d then
    if rollCond m todayM then
      if dateValid (year + 1) m d then some ⟨year + 1, m, d⟩
      else some ⟨year, m, d⟩
    else some ⟨year, m, d⟩
  else none

/-- Modelled from the spec (refinement comparison only): "resolve year
ambiguity by assuming the configured year unless the resulting month is
more than 6 months before the current month, in which case roll to next
year." -/
def spec_resolve_year (year m d todayM : Nat) : Date :=
  if rollCond m todayM then ⟨year + 1, m, d⟩ else ⟨year, m, d⟩

/-! ### The configured date window (`src/models.py` lines 64-96) -/

/-- Python `date + timedelta(days=1)` on the (year, month, day) fields. -/
def nextDay (dt : Date) : Date :=
  if dt.day < daysInMonth dt.year dt.month then ⟨dt.year, dt.month, dt.day + 1⟩
  else if dt.month < 12 then ⟨dt.year, dt.month + 1, 1⟩
  else ⟨dt.year + 1, 1, 1⟩

/-- Python `date + timedelta(days=n)`. -/
def addDays (dt : Date) : Nat → Date
  | 0 => dt
  | n + 1 => nextDay (addDays dt n)

/-- `ScraperConfig` (models.py lines 64-96). `retry_delay` is a float
used only for sleep intervals and is not modelled. -/
structure ScraperConfig where
  start_date : Date
  days_ahead : Nat := 60
  enable_screen_boston : Bool := true
  enable_coolidge : Bool := true
  enable_hfa : Bool := true
  enable_brattle : Bool := true
  timeout : Nat := 30
  max_retries : Nat := 3
  use_cache : Bool := false
  cache_dir : String := ".cache"
deriving Repr

/-- `ScraperConfig.end_date` (models.py lines 86-89):
`start_date + timedelta(days=self.days_ahead)`. -/
def ScraperConfig.end_date (c : ScraperConfig) : Date :=
  addDays c.start_date c.days_ahead

/-- The generator loop of `ScraperConfig.date_range` (models.py lines
91-96): `current = start_date; while current <= end_date: yield current;
current += timedelta(days=1)`. -/
def date_range_go (cur endD : Date) : List Date :=
  if dateLe cur endD then cur :: date_range_go (nextDay cur) endD else []
termination_by ((endD.year + 1) - cur.year, 13 - cur.month, 32 - cur.day)
decreasing_by
  rename_i h
  by_cases h1 : cur.day < daysInMonth cur.year cur.month
  · have hle : daysInMonth cur.year cur.month ≤ 31 := by
      unfold daysInMonth
      split
      · split <;> omega
      · split <;> omega
    simp only [nextDay, h1, if_true]
    apply Prod.Lex.right
    apply Prod.Lex.right
    omega
  · by_cases h2 : cur.month < 12
    · simp only [nextDay, h1, if_false, h2, if_true]
      apply Prod.Lex.right
      apply Prod.Lex.left
      omega
    · have hy : cur.year ≤ endD.year := by
        unfold dateLe Date.toNats natsLe at h
        by_cases ha : cur.year < endD.year
        · omega
        · by_cases hb : endD.year < cur.year
          · simp [ha, hb] at h
          · omega
      simp only [nextDay, h1, if_false, h2]
      apply Prod.Lex.left
      omega

/-- `ScraperConfig.date_range` (models.py lines 91-96). -/
def ScraperConfig.date_range (c : ScraperConfig) : List Date :=
  date_range_go c.start_date c.end_date

/-! ### Theorems -/

theorem isPre_iff (a b : List Char) : isPre a b = true ↔ ∃ t, b = a ++ t := by
  induction a generalizing b with
  | nil => simp [isPre]
  | cons x xs ih =>
    cases b with
    | nil => simp [isPre]
    | cons y ys =>
      simp only [isPre, Bool.and_eq_true, beq_iff_eq, ih, List.cons_append,
        List.cons.injEq]
      constructor
      · rintro ⟨rfl, t, rfl⟩
        exact ⟨t, rfl, rfl⟩
      · rintro ⟨t, rfl, rfl⟩
        exact ⟨rfl, t, rfl⟩

theorem containsSeq_iff (a b : List Char) :
    containsSeq a b = true ↔ ∃ p t, b = p ++ a ++ t := by
  induction b with
  | nil =>
    simp only [containsSeq, List.isEmpty_iff]
    constructor
    · rintro rfl
      exact ⟨[], [], rfl⟩
    · rintro ⟨p, t, h⟩
      rcases List.append_eq_nil.mp (List.append_eq_nil.mp h.symm).1 with ⟨_, h2⟩
      exact h2
  | cons c rest ih =>
    simp only [containsSeq, Bool.or_eq_true, isPre_iff, ih]
    constructor
    · rintro (⟨t, h⟩ | ⟨p, t, h⟩)
      · exact ⟨[], t, by simp [h]⟩
      · exact ⟨c :: p, t, by simp [h]⟩
    · rintro ⟨p, t, h⟩
      cases p with
      | nil =>
        exact Or.inl ⟨t, by simpa using h⟩
      | cons q qs =>
        simp only [List.cons_append, List.cons.injEq] at h
        exact Or.inr ⟨qs, t, by simp [h.2]⟩

/-- Substring containment is transitive: if `a` occurs in `b` and `b`
occurs in `c` then `a` occurs in `c`. -/
theorem containsSeq_trans {a b c : List Char} (h1 : containsSeq a b = true)
    (h2 : containsSeq b c = true) : containsSeq a c = true := by
  rw [containsSeq_iff] at h1 h2 ⊢
  obtain ⟨p1, t1, rfl⟩ := h1
  obtain ⟨p2, t2, rfl⟩ := h2
  exact ⟨p2 ++ p1, t1 ++ t2, by simp⟩

theorem pyDedupAux_sublist {α : Type} [DecidableEq α] (seen : List α)
    (l : List α) : (pyDedupAux seen l).Sublist l := by
  induction l generalizing seen with
  | nil => simp [pyDedupAux]
  | cons a rest ih =>
    simp only [pyDedupAux]
    split
    · exact (ih seen).trans (List.sublist_cons_self a rest)
    · exact (ih (a :: seen)).cons₂ a

theorem pyDedupAux_not_mem_seen {α : Type} [DecidableEq α] (seen : List α)
    (l : List α) : ∀ a ∈ pyDedupAux seen l, a ∉ seen := by
  induction l generalizing seen with
  | nil => simp [pyDedupAux]
  | cons a rest ih =>
    simp only [pyDedupAux]
    split
    · exact ih seen
    · rename_i hnot
      intro x hx
      rcases List.mem_cons.mp hx with hx | hx
      · subst hx
        exact hnot
      · have := ih (a :: seen) x hx
        intro hmem
        exact this (List.mem_cons_of_mem a hmem)

theorem pyDedupAux_nodup {α : Type} [DecidableEq α] (seen : List α)
    (l : List α) : (pyDedupAux seen l).Nodup := by
  induction l generalizing seen with
  | nil => simp [pyDedupAux]
  | cons a rest ih =>
    simp only [pyDedupAux]
    split
    · exact ih seen
    · refine List.nodup_cons.mpr ⟨?_, ih (a :: seen)⟩
      intro hmem
      exact pyDedupAux_not_mem_seen (a :: seen) rest a hmem (List.mem_cons_self a seen)

theorem pyDedup_nodup {α : Type} [DecidableEq α] (l : List α) :
    (pyDedup l).Nodup := pyDedupAux_nodup [] l

theorem pyDedup_sublist {α : Type} [DecidableEq α] (l : List α) :
    (pyDedup l).Sublist l := pyDedupAux_sublist [] l

theorem pyDedupAux_mem {α : Type} [DecidableEq α] (seen : List α) (l : List α) :
    ∀ a, a ∈ l → a ∉ seen → a ∈ pyDedupAux seen l := by
  induction l generalizing seen with
  | nil => simp
  | cons b rest ih =>
    intro a ha hseen
    simp only [pyDedupAux]
    rcases List.mem_cons.mp ha with ha | ha
    · subst ha
      split
      · exact absurd (by assumption) hseen
      · exact List.mem_cons_self a _
    · split
      · exact ih seen a ha hseen
      · by_cases hab : a = b
        · exact hab ▸ List.mem_cons_self a _
        · exact List.mem_cons_of_mem b
            (ih (b :: seen) a ha (by simp [hseen, hab]))

/-- Membership is preserved by the deduplication. -/
theorem pyDedup_mem_iff {α : Type} [DecidableEq α] (l : List α) (a : α) :
    a ∈ pyDedup l ↔ a ∈ l := by
  constructor
  · exact fun h => (pyDedup_sublist l).mem h
  · exact fun h => pyDedupAux_mem [] l a h (by simp)

theorem appIf_sublist {x l : List String} (b : Bool) (tag : String)
    (h : x.Sublist l) :
    (if b then x ++ [tag] else x).Sublist (l ++ [tag]) := by
  cases b with
  | true => simpa using h.append (List.Sublist.refl [tag])
  | false => simpa using h.trans (List.sublist_append_left l [tag])

theorem mem_appIf {x : List String} (b : Bool) (tag a : String)
    (h : a ∈ x) : a ∈ (if b then x ++ [tag] else x) := by
  cases b <;> simp [h]

/-- If the text contains "screening on 35mm" or "35mm / dcp" it contains
"35mm", so the guarded re-append of "35mm" in the fifth rule never fires. -/
theorem attrs5_eq (t : List Char) : attrs5 t = attrs4 t := by
  unfold attrs5
  split
  · rename_i hc
    have h35 : hasSub "35mm" t = true := by
      rcases Bool.or_eq_true _ _ |>.mp hc with h | h
      · exact containsSeq_trans (by decide) h
      · exact containsSeq_trans (by decide) h
    have hmem : "35mm" ∈ attrs4 t := by
      have h1 : "35mm" ∈ attrs1 t := by simp [attrs1, h35]
      have h2 : "35mm" ∈ attrs2 t := by unfold attrs2; exact mem_appIf _ _ _ h1
      have h3 : "35mm" ∈ attrs3 t := by unfold attrs3; exact mem_appIf _ _ _ h2
      unfold attrs4; exact mem_appIf _ _ _ h3
    rw [if_pos (show (attrs4 t).contains "35mm" = true from
      List.elem_eq_true_of_mem hmem)]
  · rfl

/-- Likewise the guarded re-append of "16mm" in the sixth rule never fires. -/
theorem attrs6_eq (t : List Char) : attrs6 t = attrs5 t := by
  unfold attrs6
  split
  · rename_i hc
    have h16 : hasSub "16mm" t = true := by
      rcases Bool.or_eq_true _ _ |>.mp hc with h | h
      · exact containsSeq_trans (by decide) h
      · exact containsSeq_trans (by decide) h
    have hmem : "16mm" ∈ attrs5 t := by
      have h1 : "16mm" ∈ attrs3 t := by simp [attrs3, h16]
      have h2 : "16mm" ∈ attrs4 t := by unfold attrs4; exact mem_appIf _ _ _ h1
      rw [attrs5_eq]; exact h2
    rw [if_pos (show (attrs5 t).contains "16mm" = true from
      List.elem_eq_true_of_mem hmem)]
  · rfl

/-- The accumulated attribute list is always an order-preserving selection
from the fixed rule table. -/
theorem attrs17_sublist (t : List Char) : (attrs17 t).Sublist ATTR_TABLE := by
  have h1 : (attrs1 t).Sublist ["35mm"] := by
    unfold attrs1; exact appIf_sublist _ _ (List.nil_sublist [])
  have h2 : (attrs2 t).Sublist ["35mm", "70mm"] := by
    unfold attrs2; exact appIf_sublist _ _ h1
  have h3 : (attrs3 t).Sublist ["35mm", "70mm", "16mm"] := by
    unfold attrs3; exact appIf_sublist _ _ h2
  have h4 : (attrs4 t).Sublist ["35mm", "70mm", "16mm", "Screening on film"] := by
    unfold attrs4; exact appIf_sublist _ _ h3
  have h6 : (attrs6 t).Sublist ["35mm", "70mm", "16mm", "Screening on film"] := by
    rw [attrs6_eq, attrs5_eq]; exact h4
  have h7 : (attrs7 t).Sublist
      ["35mm", "70mm", "16mm", "Screening on film", "Panel discussion"] := by
    unfold attrs7; exact appIf_sublist _ _ h6
  have h8 : (attrs8 t).Sublist
      ["35mm", "70mm", "16mm", "Screening on film", "Panel discussion", "Q&A"] := by
    unfold attrs8; exact appIf_sublist _ _ h7
  have h9 : (attrs9 t).Sublist
      ["35mm", "70mm", "16mm", "Screening on film", "Panel discussion", "Q&A",
       "Director in person"] := by
    unfold attrs9; exact appIf_sublist _ _ h8
  have h10 : (attrs10 t).Sublist
      ["35mm", "70mm", "16mm", "Screening on film", "Panel discussion", "Q&A",
       "Director in person", "Live musical accompaniment"] := by
    unfold attrs10; exact appIf_sublist _ _ h9
  have h11 : (attrs11 t).Sublist
      ["35mm", "70mm", "16mm", "Screening on film", "Panel discussion", "Q&A",
       "Director in person", "Live musical accompaniment", "Double feature"] := by
    unfold attrs11; exact appIf_sublist _ _ h10
  have h12 : (attrs12 t).Sublist
      ["35mm", "70mm", "16mm", "Screening on film", "Panel discussion", "Q&A",
       "Director in person", "Live musical accompaniment", "Double feature",
       "Premiere"] := by
    unfold attrs12; exact appIf_sublist _ _ h11
  have h13 : (attrs13 t).Sublist
      ["35mm", "70mm", "16mm", "Screening on film", "Panel discussion", "Q&A",
       "Director in person", "Live musical accompaniment", "Double feature",
       "Premiere", "New Release"] := by
    unfold attrs13; exact appIf_sublist _ _ h12
  have h14 : (attrs14 t).Sublist
      ["35mm", "70mm", "16mm", "Screening on film", "Panel discussion", "Q&A",
       "Director in person", "Live musical accompaniment", "Double feature",
       "Premiere", "New Release", "Spotlight on Women"] := by
    unfold attrs14; exact appIf_sublist _ _ h13
  have h15 : (attrs15 t).Sublist
      ["35mm", "70mm", "16mm", "Screening on film", "Panel discussion", "Q&A",
       "Director in person", "Live musical accompaniment", "Double feature",
       "Premiere", "New Release", "Spotlight on Women", "Sing-along"] := by
    unfold attrs15; exact appIf_sublist _ _ h14
  have h16 : (attrs16 t).Sublist
      ["35mm", "70mm", "16mm", "Screening on film", "Panel discussion", "Q&A",
       "Director in person", "Live musical accompaniment", "Double feature",
       "Premiere", "New Release", "Spotlight on Women", "Sing-along",
       "Discussion"] := by
    unfold attrs16; exact appIf_sublist _ _ h15
  unfold attrs17
  exact appIf_sublist _ _ h16

/-- C9: the Attribute Normalizer `extract_special_attributes` is a
deterministic pure function (same text, same ordered output), its output
lists each canonical tag at most once, and the output order is the fixed
rule-table first-match order (an order-preserving selection from
`ATTR_TABLE`). -/
theorem C9_extract_special_attributes_deterministic_nodup_ordered :
    (∀ t₁ t₂ : List Char, t₁ = t₂ →
      extract_special_attributes t₁ = extract_special_attributes t₂)
    ∧ (∀ t : List Char, (extract_special_attributes t).Nodup)
    ∧ (∀ t : List Char, (extract_special_attributes t).Sublist ATTR_TABLE) := by
  refine ⟨?_, ?_, ?_⟩
  · intro t₁ t₂ h
    rw [h]
  · intro t
    unfold extract_special_attributes
    split
    · exact List.nodup_nil
    · exact pyDedup_nodup _
  · intro t
    unfold extract_special_attributes
    split
    · exact List.nil_sublist _
    · exact (pyDedup_sublist _).trans (attrs17_sublist _)

/-- Witness for C9 at a concrete text: two invocations agree, the output
is duplicate-free and is an ordered selection from the rule table (its
concrete value is `["35mm", "Panel discussion", "Q&A"]`). -/
theorem C9_witness :
    (extract_special_attributes
        ("Screening on 35mm print, with Q&A and panel discussion".toList)
      = ["35mm", "Panel discussion", "Q&A"])
    ∧ (extract_special_attributes
        ("Screening on 35mm print, with Q&A and panel discussion".toList)
      = extract_special_attributes
        ("Screening on 35mm print, with Q&A and panel discussion".toList))
    ∧ (extract_special_attributes
        ("Screening on 35mm print, with Q&A and panel discussion".toList)).Nodup
    ∧ (extract_special_attributes
        ("Screening on 35mm print, with Q&A and panel discussion".toList)).Sublist
        ATTR_TABLE :=
  ⟨by decide,
   C9_extract_special_attributes_deterministic_nodup_ordered.1 _ _ rfl,
   C9_extract_special_attributes_deterministic_nodup_ordered.2.1 _,
   C9_extract_special_attributes_deterministic_nodup_ordered.2.2 _⟩

/-- C10: the shared runtime parser `parse_runtime` never returns a
non-positive number: for every input it returns `none` or a strictly
positive number of minutes. In particular "0 min" (which sums to zero
minutes) yields `none`, while well-formed runtimes parse positively. -/
theorem C10_parse_runtime_positive_or_none :
    (∀ s : List Char, parse_runtime s = none ∨
      ∃ n : Nat, 0 < n ∧ parse_runtime s = some n)
    ∧ parse_runtime ("0 min".toList) = none
    ∧ parse_runtime ("2h 30m".toList) = some 150
    ∧ parse_runtime ("150 min".toList) = some 150 := by
  refine ⟨?_, by decide, by decide, by decide⟩
  intro s
  have key : ∀ m : Nat, (if 0 < m then some m else none) = (none : Option Nat)
      ∨ ∃ n : Nat, 0 < n ∧ (if 0 < m then some m else none) = some n := by
    intro m
    by_cases h : 0 < m
    · exact Or.inr ⟨m, h, if_pos h⟩
    · exact Or.inl (if_neg h)
  simp only [parse_runtime]
  exact key _

/-- C4: Screening identity is a pure function of (title, venue, date,
time) only. Any two Screenings agreeing on these four fields have the
same `unique_id` md5 preimage (hence the same `unique_id`), compare equal
under `__eq__`, and hash the same tuple under `__hash__`, regardless of
all metadata fields (runtime, director, year, extra, special_attributes,
source_url, source_site). -/
theorem C4_identity_depends_only_on_key_fields :
    ∀ a b : Screening, a.title = b.title → a.venue = b.venue →
      a.date = b.date → a.time = b.time →
      uniqueIdKey a = uniqueIdKey b ∧ pyEq a b = true ∧ hashKey a = hashKey b := by
  intro a b ht hv hd htm
  refine ⟨?_, ?_, ?_⟩
  · unfold uniqueIdKey
    rw [ht, hv, hd, htm]
  · unfold pyEq
    simp [ht, hv, hd, htm]
  · unfold hashKey
    rw [ht, hv, hd, htm]

/-- Witness for C4: two concrete screenings agreeing on (title, venue,
date, time) but differing in every metadata field have the same identity
key string, compare equal and hash equal. -/
theorem C4_witness :
    uniqueIdKey
        { title := "Dune", venue := "The Brattle", date := ⟨2025, 6, 1⟩,
          time := ⟨19, 0, 0⟩, source_url := "https://brattle/a",
          source_site := "Brattle", runtime_minutes := some 155,
          director := some "Villeneuve", year := some 2021,
          extra := some "35mm", special_attributes := some ["35mm"] }
      = uniqueIdKey
        { title := "Dune", venue := "The Brattle", date := ⟨2025, 6, 1⟩,
          time := ⟨19, 0, 0⟩, source_url := "https://screenboston/b",
          source_site := "Screen Boston", runtime_minutes := none,
          director := none, year := none, extra := none,
          special_attributes := none }
    ∧ pyEq
        { title := "Dune", venue := "The Brattle", date := ⟨2025, 6, 1⟩,
          time := ⟨19, 0, 0⟩, source_url := "https://brattle/a",
          source_site := "Brattle", runtime_minutes := some 155,
          director := some "Villeneuve", year := some 2021,
          extra := some "35mm", special_attributes := some ["35mm"] }
        { title := "Dune", venue := "The Brattle", date := ⟨2025, 6, 1⟩,
          time := ⟨19, 0, 0⟩, source_url := "https://screenboston/b",
          source_site := "Screen Boston", runtime_minutes := none,
          director := none, year := none, extra := none,
          special_attributes := none } = true
    ∧ hashKey
        { title := "Dune", venue := "The Brattle", date := ⟨2025, 6, 1⟩,
          time := ⟨19, 0, 0⟩, source_url := "https://brattle/a",
          source_site := "Brattle", runtime_minutes := some 155,
          director := some "Villeneuve", year := some 2021,
          extra := some "35mm", special_attributes := some ["35mm"] }
      = hashKey
        { title := "Dune", venue := "The Brattle", date := ⟨2025, 6, 1⟩,
          time := ⟨19, 0, 0⟩, source_url := "https://screenboston/b",
          source_site := "Screen Boston", runtime_minutes := none,
          director := none, year := none, extra := none,
          special_attributes := none } :=
  C4_identity_depends_only_on_key_fields _ _ rfl rfl rfl rfl

/-- Python `len(set(xs)) == 1` on a nonempty list says exactly that all
elements equal the first. -/
theorem toFinset_card_eq_one_iff {α : Type} [DecidableEq α] (d : α)
    (ds : List α) : ((d :: ds).toFinset.card = 1) ↔ ∀ x ∈ d :: ds, x = d := by
  constructor
  · intro h x hx
    obtain ⟨a, ha⟩ := Finset.card_eq_one.mp h
    have hd : d ∈ (d :: ds).toFinset := by simp
    have hx' : x ∈ (d :: ds).toFinset := List.mem_toFinset.mpr hx
    rw [ha] at hd hx'
    simp only [Finset.mem_singleton] at hd hx'
    rw [hx', hd]
  · intro h
    have : (d :: ds).toFinset = {d} := by
      ext x
      simp only [List.mem_toFinset, Finset.mem_singleton]
      constructor
      · exact h x
      · intro hx
        rw [hx]
        exact List.mem_cons_self d ds
    rw [this]
    exact Finset.card_singleton d

theorem mergeGroup_title (first : Screening) (rest : List Screening) :
    (mergeGroup first rest).title
      = String.intercalate " + " ((first :: rest).map (fun s => s.title)) := rfl

theorem mergeGroup_director (first : Screening) (rest : List Screening) :
    (mergeGroup first rest).director
      = match (first :: rest).filterMap (fun s => truthyStr s.director) with
        | [] => none
        | d :: ds =>
          if ((d :: ds).toFinset.card = 1) then some d
          else some (String.intercalate " + " (d :: ds)) := rfl

theorem mergeGroup_runtime (first : Screening) (rest : List Screening) :
    (mergeGroup first rest).runtime_minutes
      = if (first :: rest).filterMap (fun s => s.runtime_minutes) = [] then none
        else some ((first :: rest).filterMap (fun s => s.runtime_minutes)).sum := rfl

theorem mergeGroup_extra (first : Screening) (rest : List Screening) :
    (mergeGroup first rest).extra
      = if (first :: rest).filterMap (fun s => truthyStr s.extra) = [] then none
        else some (String.intercalate ", "
          ((first :: rest).filterMap (fun s => truthyStr s.extra))) := rfl

theorem mergeGroup_special (first : Screening) (rest : List Screening) :
    (mergeGroup first rest).special_attributes
      = if (first :: rest).flatMap specialList = [] then none
        else some (pyDedup ((first :: rest).flatMap specialList)) := rfl

theorem mergeSort_single {α : Type} (x : α) (le : α → α → Bool) :
    List.mergeSort [x] le = [x] :=
  List.perm_singleton.mp (List.mergeSort_perm [x] le)

/-- C1: Stage A double-feature merge. In general, the merged record of a
same-slot group `first :: rest` has title = the titles joined with
" + "; director = null when no (truthy) director is present, the single
director when all present directors agree, else the present directors
joined with " + "; runtime = sum of the known runtimes, null when none
known; extra = the present extras joined with ", ", null when none; and
special_attributes = the union of the groups' attribute lists preserving
first-seen order (duplicate-free, same membership, order-preserving).
In particular, merging the two candidates "A" (runtime 90) and "B"
(runtime 100) grouped at the same (canonical venue, date, time) yields
one record with title "A + B" and runtime 190. -/
theorem C1_stage_a_double_feature_merge :
    (∀ (first : Screening) (rest : List Screening),
      ((mergeGroup first rest).title
        = String.intercalate " + " ((first :: rest).map (fun s => s.title)))
      ∧ ((first :: rest).filterMap (fun s => truthyStr s.director) = [] →
          (mergeGroup first rest).director = none)
      ∧ (∀ d ds, (first :: rest).filterMap (fun s => truthyStr s.director) = d :: ds →
          ((∀ x ∈ d :: ds, x = d) → (mergeGroup first rest).director = some d)
          ∧ (¬ (∀ x ∈ d :: ds, x = d) →
              (mergeGroup first rest).director
                = some (String.intercalate " + " (d :: ds))))
      ∧ ((first :: rest).filterMap (fun s => s.runtime_minutes) = [] →
          (mergeGroup first rest).runtime_minutes = none)
      ∧ (∀ r rs, (first :: rest).filterMap (fun s => s.runtime_minutes) = r :: rs →
          (mergeGroup first rest).runtime_minutes = some ((r :: rs).sum))
      ∧ ((first :: rest).filterMap (fun s => truthyStr s.extra) = [] →
          (mergeGroup first rest).extra = none)
      ∧ (∀ e es, (first :: rest).filterMap (fun s => truthyStr s.extra) = e :: es →
          (mergeGroup first rest).extra
            = some (String.intercalate ", " (e :: es)))
      ∧ ((first :: rest).flatMap specialList = [] →
          (mergeGroup first rest).special_attributes = none)
      ∧ (∀ a as, (first :: rest).flatMap specialList = a :: as →
          ∃ sa, (mergeGroup first rest).special_attributes = some sa
            ∧ sa.Nodup
            ∧ (∀ x, x ∈ sa ↔ x ∈ (first :: rest).flatMap specialList)
            ∧ sa.Sublist ((first :: rest).flatMap specialList)))
    ∧ (merge_double_screenings [candA, candB]).map
        (fun s => (s.title, s.runtime_minutes, s.director))
      = [("A + B", some 190, none)] := by
  constructor
  · intro first rest
    refine ⟨mergeGroup_title first rest, ?_, ?_, ?_, ?_, ?_, ?_, ?_, ?_⟩
    · intro h
      rw [mergeGroup_director, h]
    · intro d ds h
      constructor
      · intro hall
        have hcard := (toFinset_card_eq_one_iff d ds).mpr hall
        rw [mergeGroup_director, h]
        simp only [hcard, if_true]
      · intro hnot
        have hcard := mt (toFinset_card_eq_one_iff d ds).mp hnot
        rw [mergeGroup_director, h]
        simp only [hcard, if_false]
    · intro h
      rw [mergeGroup_runtime, if_pos h]
    · intro r rs h
      rw [mergeGroup_runtime, if_neg (by simp [h]), h]
    · intro h
      rw [mergeGroup_extra, if_pos h]
    · intro e es h
      rw [mergeGroup_extra, if_neg (by simp [h]), h]
    · intro h
      rw [mergeGroup_special, if_pos h]
    · intro a as h
      refine ⟨pyDedup ((first :: rest).flatMap specialList), ?_, ?_, ?_, ?_⟩
      · rw [mergeGroup_special, if_neg (by simp [h])]
      · exact pyDedup_nodup _
      · exact fun x => pyDedup_mem_iff _ x
      · exact pyDedup_sublist _
  · have hp : pass1 [candA, candB] = [mergeGroup candA [candB]] := by decide
    show (pass2 ((pass1 [candA, candB]).mergeSort venueDateTimeLe)).map
        (fun s => (s.title, s.runtime_minutes, s.director))
      = [("A + B", some 190, none)]
    rw [hp, mergeSort_single]
    decide

/-- Witness for C1 at the concrete scenario group `candA :: [candB]`:
the hypotheses of the runtime and director clauses are discharged at the
concrete filterMap values. -/
theorem C1_stage_a_double_feature_merge_witness :
    (mergeGroup candA [candB]).runtime_minutes = some ([90, 100].sum)
    ∧ (mergeGroup candA [candB]).director = none :=
  ⟨((C1_stage_a_double_feature_merge.1 candA [candB]).2.2.2.2.1) 90 [100] (by decide),
   ((C1_stage_a_double_feature_merge.1 candA [candB]).2.1) (by decide)⟩

/-! ### Association-list lemmas (Python dict semantics) -/

theorem lookupA_append_self {K V : Type} [DecidableEq K] (m : List (K × V))
    (k : K) (v : V) (h : lookupA m k = none) :
    lookupA (m ++ [(k, v)]) k = some v := by
  induction m with
  | nil => simp [lookupA]
  | cons p rest ih =>
    rw [List.cons_append]
    unfold lookupA at h ⊢
    by_cases hk : p.1 = k
    · simp [hk] at h
    · simp only [hk, if_false] at h ⊢
      exact ih h

theorem lookupA_append_other {K V : Type} [DecidableEq K] (m : List (K × V))
    (k k' : K) (v : V) (h : k' ≠ k) :
    lookupA (m ++ [(k, v)]) k' = lookupA m k' := by
  induction m with
  | nil =>
    simp only [List.nil_append, lookupA]
    rw [if_neg (Ne.symm h)]
  | cons p rest ih =>
    rw [List.cons_append]
    unfold lookupA
    by_cases hk : p.1 = k'
    · simp [hk]
    · simp only [hk, if_false]
      exact ih

theorem lookupA_update_self {K V : Type} [DecidableEq K] (m : List (K × V))
    (k : K) (v w : V) (h : lookupA m k = some v) :
    lookupA (updateA m k w) k = some w := by
  induction m with
  | nil => simp [lookupA] at h
  | cons p rest ih =>
    unfold lookupA at h
    unfold updateA
    by_cases hk : p.1 = k
    · simp [hk, lookupA]
    · simp only [hk, if_false] at h
      simp only [hk, if_false]
      unfold lookupA
      simp only [hk, if_false]
      exact ih h

theorem lookupA_update_other {K V : Type} [DecidableEq K] (m : List (K × V))
    (k k' : K) (w : V) (h : k' ≠ k) :
    lookupA (updateA m k w) k' = lookupA m k' := by
  induction m with
  | nil => simp [updateA]
  | cons p rest ih =>
    unfold updateA
    by_cases hk : p.1 = k
    · have hne : ¬ (k = k') := fun e => h e.symm
      have hne' : ¬ (p.1 = k') := by
        rw [hk]
        exact hne
      simp only [hk, if_true]
      unfold lookupA
      rw [if_neg hne, if_neg hne']
    · simp only [hk, if_false]
      unfold lookupA
      by_cases hk' : p.1 = k'
      · rw [if_pos hk', if_pos hk']
      · rw [if_neg hk', if_neg hk']
        exact ih

theorem updateA_keys {K V : Type} [DecidableEq K] (m : List (K × V))
    (k : K) (w : V) : (updateA m k w).map Prod.fst = m.map Prod.fst := by
  induction m with
  | nil => simp [updateA]
  | cons p rest ih =>
    unfold updateA
    by_cases hk : p.1 = k
    · simp [hk]
    · simp only [hk, if_false, List.map_cons]
      rw [ih]

theorem lookupA_none_not_mem {K V : Type} [DecidableEq K] (m : List (K × V))
    (k : K) (h : lookupA m k = none) : k ∉ m.map Prod.fst := by
  induction m with
  | nil => simp
  | cons p rest ih =>
    unfold lookupA at h
    by_cases hk : p.1 = k
    · simp [hk] at h
    · simp only [hk, if_false] at h
      simp only [List.map_cons, List.mem_cons]
      rintro (hx | hx)
      · exact hk hx.symm
      · exact ih h hx

theorem lookupA_mem {K V : Type} [DecidableEq K] (m : List (K × V))
    (k : K) (v : V) (h : lookupA m k = some v) : (k, v) ∈ m := by
  induction m with
  | nil => simp [lookupA] at h
  | cons p rest ih =>
    unfold lookupA at h
    by_cases hk : p.1 = k
    · simp only [hk, if_true, Option.some.injEq] at h
      have : (k, v) = p := by rw [← hk, ← h]
      rw [this]
      exact List.mem_cons_self p rest
    · simp only [hk, if_false] at h
      exact List.mem_cons_of_mem p (ih h)

theorem mem_updateA {K V : Type} [DecidableEq K] (m : List (K × V))
    (k : K) (w : V) (p : K × V) (h : p ∈ updateA m k w) :
    p ∈ m ∨ p = (k, w) := by
  induction m with
  | nil => simp [updateA] at h
  | cons q rest ih =>
    unfold updateA at h
    by_cases hk : q.1 = k
    · simp only [hk, if_true, List.mem_cons] at h
      rcases h with h | h
      · exact Or.inr h
      · exact Or.inl (List.mem_cons_of_mem q h)
    · simp only [hk, if_false, List.mem_cons] at h
      rcases h with h | h
      · left
        rw [h]
        exact List.mem_cons_self q rest
      · rcases ih h with h' | h'
        · exact Or.inl (List.mem_cons_of_mem q h')
        · exact Or.inr h'

theorem pref_ne_sb {v p : String}
    (h : venue_to_preferred_site v = some p) : p ≠ "Screen Boston" := by
  intro heq
  subst heq
  unfold venue_to_preferred_site at h
  split at h
  · exact absurd (Option.some.inj h) (by decide)
  · split at h
    · exact absurd (Option.some.inj h) (by decide)
    · split at h
      · exact absurd (Option.some.inj h) (by decide)
      · exact Option.noConfusion h

theorem dedupStep_none (m : List (DedupKey × Screening)) (s : Screening)
    (hm : lookupA m (dedupKey s) = none) :
    dedupStep m s = m ++ [(dedupKey s, s)] := by
  simp only [dedupStep]
  rw [hm]

theorem dedupStep_some (m : List (DedupKey × Screening)) (s v : Screening)
    (hm : lookupA m (dedupKey s) = some v) :
    dedupStep m s =
      if v.source_site == s.source_site then m
      else if some s.source_site == venue_to_preferred_site s.venue then
        updateA m (dedupKey s) s
      else if v.source_site == "Screen Boston"
          && s.source_site != "Screen Boston" then
        updateA m (dedupKey s) s
      else m := by
  simp only [dedupStep]
  rw [hm]

theorem dedupStep_frame (m : List (DedupKey × Screening)) (s : Screening)
    (k : DedupKey) (h : k ≠ dedupKey s) :
    lookupA (dedupStep m s) k = lookupA m k := by
  cases hm : lookupA m (dedupKey s) with
  | none =>
    rw [dedupStep_none m s hm]
    exact lookupA_append_other m (dedupKey s) k s h
  | some v =>
    rw [dedupStep_some m s v hm]
    split
    · rfl
    · split
      · exact lookupA_update_other m (dedupKey s) k s h
      · split
        · exact lookupA_update_other m (dedupKey s) k s h
        · rfl

theorem keyConsistent_step (m : List (DedupKey × Screening)) (s : Screening)
    (h : KeyConsistent m) : KeyConsistent (dedupStep m s) := by
  have hupd : KeyConsistent (updateA m (dedupKey s) s) := by
    intro p hp
    rcases mem_updateA m (dedupKey s) s p hp with hp' | hp'
    · exact h p hp'
    · rw [hp']
  cases hm : lookupA m (dedupKey s) with
  | none =>
    rw [dedupStep_none m s hm]
    intro p hp
    rcases List.mem_append.mp hp with hp' | hp'
    · exact h p hp'
    · simp only [List.mem_singleton] at hp'
      rw [hp']
  | some v =>
    rw [dedupStep_some m s v hm]
    split
    · exact h
    · split
      · exact hupd
      · split
        · exact hupd
        · exact h

theorem keys_nodup_step (m : List (DedupKey × Screening)) (s : Screening)
    (h : (m.map Prod.fst).Nodup) :
    ((dedupStep m s).map Prod.fst).Nodup := by
  have hupd : ((updateA m (dedupKey s) s).map Prod.fst).Nodup := by
    rw [updateA_keys]
    exact h
  cases hm : lookupA m (dedupKey s) with
  | none =>
    have hnin := lookupA_none_not_mem m (dedupKey s) hm
    rw [dedupStep_none m s hm]
    rw [List.map_append]
    simp only [List.map_cons, List.map_nil]
    rw [List.nodup_append]
    exact ⟨h, List.nodup_singleton _, by
      intro x hx hx'
      simp only [List.mem_singleton] at hx'
      exact hnin (hx' ▸ hx)⟩
  | some v =>
    rw [dedupStep_some m s v hm]
    split
    · exact h
    · split
      · exact hupd
      · split
        · exact hupd
        · exact h

theorem fold_keyConsistent (ss : List Screening)
    (m : List (DedupKey × Screening)) (h : KeyConsistent m) :
    KeyConsistent (ss.foldl dedupStep m) := by
  induction ss generalizing m with
  | nil => exact h
  | cons s ss' ih =>
    simp only [List.foldl_cons]
    exact ih (dedupStep m s) (keyConsistent_step m s h)

theorem fold_keys_nodup (ss : List Screening)
    (m : List (DedupKey × Screening)) (h : (m.map Prod.fst).Nodup) :
    (((ss.foldl dedupStep m)).map Prod.fst).Nodup := by
  induction ss generalizing m with
  | nil => exact h
  | cons s ss' ih =>
    simp only [List.foldl_cons]
    exact ih (dedupStep m s) (keys_nodup_step m s h)

theorem dedupStep_keeps_pref (m : List (DedupKey × Screening)) (s : Screening)
    (k : DedupKey) (p : String)
    (hp : venue_to_preferred_site k.2.1 = some p)
    (h : ∃ v, lookupA m k = some v ∧ v.source_site = p) :
    ∃ w, lookupA (dedupStep m s) k = some w ∧ w.source_site = p := by
  obtain ⟨v, hv, hsite⟩ := h
  by_cases hk : k = dedupKey s
  · subst hk
    rw [dedupStep_some m s v hv]
    split
    · exact ⟨v, hv, hsite⟩
    · split
      · rename_i hc2
        have hveq : venue_to_preferred_site s.venue = some p := hp
        have heq : some s.source_site = venue_to_preferred_site s.venue :=
          beq_iff_eq.mp hc2
        have hsp : s.source_site = p := by
          rw [hveq] at heq
          exact Option.some.inj heq.symm |>.symm
        exact ⟨s, lookupA_update_self m _ v s hv, hsp⟩
      · split
        · rename_i hc3
          exfalso
          have hvsb : v.source_site = "Screen Boston" :=
            beq_iff_eq.mp (Bool.and_eq_true _ _ |>.mp hc3).1
          exact pref_ne_sb hp (hsite ▸ hvsb)
        · exact ⟨v, hv, hsite⟩
  · rw [dedupStep_frame m s k hk]
    exact ⟨v, hv, hsite⟩

theorem dedupStep_attains_pref (m : List (DedupKey × Screening)) (s : Screening)
    (hpref : venue_to_preferred_site s.venue = some s.source_site) :
    ∃ w, lookupA (dedupStep m s) (dedupKey s) = some w
      ∧ w.source_site = s.source_site := by
  cases hm : lookupA m (dedupKey s) with
  | none =>
    rw [dedupStep_none m s hm]
    exact ⟨s, lookupA_append_self m _ s hm, rfl⟩
  | some v =>
    rw [dedupStep_some m s v hm]
    split
    · rename_i hc1
      exact ⟨v, hm, beq_iff_eq.mp hc1⟩
    · split
      · exact ⟨s, lookupA_update_self m _ v s hm, rfl⟩
      · rename_i hc2
        exfalso
        apply hc2
        rw [hpref]
        exact beq_iff_eq.mpr rfl

theorem fold_pref (ss : List Screening) (m : List (DedupKey × Screening))
    (k : DedupKey) (p : String)
    (hp : venue_to_preferred_site k.2.1 = some p)
    (h : (∃ v, lookupA m k = some v ∧ v.source_site = p)
      ∨ (∃ s ∈ ss, dedupKey s = k ∧ s.source_site = p)) :
    ∃ w, lookupA (ss.foldl dedupStep m) k = some w ∧ w.source_site = p := by
  induction ss generalizing m with
  | nil =>
    rcases h with h | ⟨s, hs, _⟩
    · exact h
    · simp at hs
  | cons s ss' ih =>
    simp only [List.foldl_cons]
    rcases h with h | ⟨s', hmem, hk, hsite⟩
    · exact ih (dedupStep m s) (Or.inl (dedupStep_keeps_pref m s k p hp h))
    · rcases List.mem_cons.mp hmem with heq | hmem'
      · subst heq
        subst hk
        have hpref : venue_to_preferred_site s'.venue = some s'.source_site := by
          have hp' : venue_to_preferred_site s'.venue = some p := hp
          rw [hp', hsite]
        refine ih (dedupStep m s') (Or.inl ?_)
        obtain ⟨w, hw, hws⟩ := dedupStep_attains_pref m s' hpref
        exact ⟨w, hw, by rw [hws, hsite]⟩
      · exact ih (dedupStep m s) (Or.inr ⟨s', hmem', hk, hsite⟩)

theorem dedupStep_keeps_nonSB (m : List (DedupKey × Screening)) (s : Screening)
    (k : DedupKey)
    (h : ∃ v, lookupA m k = some v ∧ v.source_site ≠ "Screen Boston") :
    ∃ w, lookupA (dedupStep m s) k = some w
      ∧ w.source_site ≠ "Screen Boston" := by
  obtain ⟨v, hv, hsite⟩ := h
  by_cases hk : k = dedupKey s
  · subst hk
    rw [dedupStep_some m s v hv]
    split
    · exact ⟨v, hv, hsite⟩
    · split
      · rename_i hc2
        have heq : some s.source_site = venue_to_preferred_site s.venue :=
          beq_iff_eq.mp hc2
        have hs : s.source_site ≠ "Screen Boston" := pref_ne_sb heq.symm
        exact ⟨s, lookupA_update_self m _ v s hv, hs⟩
      · split
        · rename_i hc3
          exfalso
          have hvsb : v.source_site = "Screen Boston" :=
            beq_iff_eq.mp (Bool.and_eq_true _ _ |>.mp hc3).1
          exact hsite hvsb
        · exact ⟨v, hv, hsite⟩
  · rw [dedupStep_frame m s k hk]
    exact ⟨v, hv, hsite⟩

theorem dedupStep_attains_nonSB (m : List (DedupKey × Screening))
    (s : Screening) (hs : s.source_site ≠ "Screen Boston") :
    ∃ w, lookupA (dedupStep m s) (dedupKey s) = some w
      ∧ w.source_site ≠ "Screen Boston" := by
  cases hm : lookupA m (dedupKey s) with
  | none =>
    rw [dedupStep_none m s hm]
    exact ⟨s, lookupA_append_self m _ s hm, hs⟩
  | some v =>
    rw [dedupStep_some m s v hm]
    split
    · rename_i hc1
      have : v.source_site = s.source_site := beq_iff_eq.mp hc1
      exact ⟨v, hm, this ▸ hs⟩
    · split
      · exact ⟨s, lookupA_update_self m _ v s hm, hs⟩
      · split
        · exact ⟨s, lookupA_update_self m _ v s hm, hs⟩
        · rename_i hc3
          refine ⟨v, hm, ?_⟩
          intro hvsb
          apply hc3
          rw [Bool.and_eq_true]
          refine ⟨beq_iff_eq.mpr hvsb, ?_⟩
          simp [bne_iff_ne, hs]

theorem fold_nonSB (ss : List Screening) (m : List (DedupKey × Screening))
    (k : DedupKey)
    (h : (∃ v, lookupA m k = some v ∧ v.source_site ≠ "Screen Boston")
      ∨ (∃ s ∈ ss, dedupKey s = k ∧ s.source_site ≠ "Screen Boston")) :
    ∃ w, lookupA (ss.foldl dedupStep m) k = some w
      ∧ w.source_site ≠ "Screen Boston" := by
  induction ss generalizing m with
  | nil =>
    rcases h with h | ⟨s, hs, _⟩
    · exact h
    · simp at hs
  | cons s ss' ih =>
    simp only [List.foldl_cons]
    rcases h with h | ⟨s', hmem, hk, hsite⟩
    · exact ih (dedupStep m s) (Or.inl (dedupStep_keeps_nonSB m s k h))
    · rcases List.mem_cons.mp hmem with heq | hmem'
      · subst heq
        subst hk
        exact ih (dedupStep m s') (Or.inl (dedupStep_attains_nonSB m s' hsite))
      · exact ih (dedupStep m s) (Or.inr ⟨s', hmem', hk, hsite⟩)

theorem fold_first_same_site (ss : List Screening)
    (m : List (DedupKey × Screening)) (k : DedupKey) (s₀ : Screening)
    (h : lookupA m k = some s₀
      ∨ (lookupA m k = none
          ∧ ss.find? (fun s => dedupKey s == k) = some s₀))
    (hall : ∀ s ∈ ss, dedupKey s = k → s.source_site = s₀.source_site) :
    lookupA (ss.foldl dedupStep m) k = some s₀ := by
  induction ss generalizing m with
  | nil =>
    rcases h with h | ⟨_, hf⟩
    · exact h
    · simp [List.find?] at hf
  | cons s ss' ih =>
    simp only [List.foldl_cons]
    by_cases hk : dedupKey s = k
    · rcases h with h | ⟨hn, hf⟩
      · have hsame : s.source_site = s₀.source_site :=
          hall s (List.mem_cons_self s ss') hk
        have hstep : dedupStep m s = m := by
          rw [dedupStep_some m s s₀ (by rw [hk]; exact h)]
          rw [if_pos (beq_iff_eq.mpr hsame.symm)]
        rw [hstep]
        exact ih m (Or.inl h)
          (fun t ht hkt => hall t (List.mem_cons_of_mem s ht) hkt)
      · have hbeq : (dedupKey s == k) = true := beq_iff_eq.mpr hk
        have hs0 : s₀ = s := by
          simp only [List.find?, hbeq] at hf
          exact (Option.some.inj hf).symm
        subst hs0
        have hstep : lookupA (dedupStep m s₀) k = some s₀ := by
          rw [dedupStep_none m s₀ (by rw [hk]; exact hn)]
          rw [hk]
          exact lookupA_append_self m k s₀ hn
        exact ih (dedupStep m s₀) (Or.inl hstep)
          (fun t ht hkt => hall t (List.mem_cons_of_mem s₀ ht) hkt)
    · have hframe : lookupA (dedupStep m s) k = lookupA m k :=
        dedupStep_frame m s k (fun e => hk e.symm)
      refine ih (dedupStep m s) ?_
        (fun t ht hkt => hall t (List.mem_cons_of_mem s ht) hkt)
      rcases h with h | ⟨hn, hf⟩
      · exact Or.inl (hframe.trans h)
      · refine Or.inr ⟨hframe.trans hn, ?_⟩
        have hbeq : (dedupKey s == k) = false :=
          beq_eq_false_iff_ne.mpr hk
        simp only [List.find?, hbeq] at hf
        exact hf

/-- C2: Stage C cross-source deduplication, keyed by the exact (title,
venue, date, time). (a) The concrete scenario: the Dune candidates from
"Coolidge" and "Screen Boston", in either order, deduplicate to exactly
the one record from "Coolidge". (b) When every candidate with a key has
the same source site, the first seen survives unchanged. (c) When a
candidate from the venue's own authoritative (preferred) site is present,
the surviving record for that key is from the preferred site. (d) When a
candidate from a non-aggregator source is present, the surviving record
for that key is not from the aggregator ("Screen Boston"). -/
theorem C2_cross_source_deduplication :
    (deduplicate_screenings [duneCoolidge, duneSB] = [duneCoolidge]
      ∧ deduplicate_screenings [duneSB, duneCoolidge] = [duneCoolidge])
    ∧ (∀ (ss : List Screening) (k : DedupKey) (s₀ : Screening),
        ss.find? (fun s => dedupKey s == k) = some s₀ →
        (∀ s ∈ ss, dedupKey s = k → s.source_site = s₀.source_site) →
        ∃ r ∈ deduplicate_screenings ss, dedupKey r = k ∧ r = s₀)
    ∧ (∀ (ss : List Screening) (s : Screening), s ∈ ss →
        venue_to_preferred_site s.venue = some s.source_site →
        ∃ r ∈ deduplicate_screenings ss,
          dedupKey r = dedupKey s ∧ r.source_site = s.source_site)
    ∧ (∀ (ss : List Screening) (s : Screening), s ∈ ss →
        s.source_site ≠ "Screen Boston" →
        ∃ r ∈ deduplicate_screenings ss,
          dedupKey r = dedupKey s ∧ r.source_site ≠ "Screen Boston") := by
  have hout : ∀ (ss : List Screening) (k : DedupKey) (w : Screening),
      lookupA (ss.foldl dedupStep []) k = some w →
      w ∈ deduplicate_screenings ss ∧ dedupKey w = k := by
    intro ss k w hw
    have hmem := lookupA_mem _ k w hw
    have hcons : KeyConsistent (ss.foldl dedupStep []) :=
      fold_keyConsistent ss [] (by intro p hp; simp at hp)
    constructor
    · exact List.mem_map.mpr ⟨(k, w), hmem, rfl⟩
    · exact hcons (k, w) hmem
  refine ⟨⟨by decide, by decide⟩, ?_, ?_, ?_⟩
  · intro ss k s₀ hf hall
    have hlook : lookupA (ss.foldl dedupStep []) k = some s₀ :=
      fold_first_same_site ss [] k s₀ (Or.inr ⟨rfl, hf⟩) hall
    obtain ⟨hmem, hkey⟩ := hout ss k s₀ hlook
    exact ⟨s₀, hmem, hkey, rfl⟩
  · intro ss s hs hpref
    obtain ⟨w, hw, hsite⟩ := fold_pref ss [] (dedupKey s) s.source_site hpref
      (Or.inr ⟨s, hs, rfl, rfl⟩)
    obtain ⟨hmem, hkey⟩ := hout ss (dedupKey s) w hw
    exact ⟨w, hmem, hkey, hsite⟩
  · intro ss s hs hnsb
    obtain ⟨w, hw, hsite⟩ := fold_nonSB ss [] (dedupKey s)
      (Or.inr ⟨s, hs, rfl, hnsb⟩)
    obtain ⟨hmem, hkey⟩ := hout ss (dedupKey s) w hw
    exact ⟨w, hmem, hkey, hsite⟩

/-- Witness for C2: the general clauses applied at the concrete Dune
candidates, with the hypotheses discharged by computation. -/
theorem C2_cross_source_deduplication_witness :
    (∃ r ∈ deduplicate_screenings [duneSB, duneSB2],
      dedupKey r = dedupKey duneSB ∧ r = duneSB)
    ∧ (∃ r ∈ deduplicate_screenings [duneCoolidge, duneSB],
        dedupKey r = dedupKey duneCoolidge
        ∧ r.source_site = duneCoolidge.source_site)
    ∧ (∃ r ∈ deduplicate_screenings [duneSB, duneCoolidge],
        dedupKey r = dedupKey duneCoolidge
        ∧ r.source_site ≠ "Screen Boston") :=
  ⟨C2_cross_source_deduplication.2.1 [duneSB, duneSB2] (dedupKey duneSB) duneSB
      (by decide) (by decide),
   C2_cross_source_deduplication.2.2.1 [duneCoolidge, duneSB] duneCoolidge
      (by decide) (by decide),
   C2_cross_source_deduplication.2.2.2 [duneSB, duneCoolidge] duneCoolidge
      (by decide) (by decide)⟩

/-! ### Sorting lemmas for the final presentation order -/

theorem natsLe_total (a b : List Nat) : (natsLe a b || natsLe b a) = true := by
  induction a generalizing b with
  | nil => simp [natsLe]
  | cons x xs ih =>
    cases b with
    | nil => simp [natsLe]
    | cons y ys =>
      simp only [natsLe]
      rcases Nat.lt_trichotomy x y with h | h | h
      · simp [h, Nat.lt_asymm h]
      · subst h
        simp only [Nat.lt_irrefl, if_false]
        exact ih ys
      · simp [h, Nat.lt_asymm h]

theorem natsLe_trans (a b c : List Nat) (hab : a.length = b.length)
    (hbc : b.length = c.length) (h1 : natsLe a b = true)
    (h2 : natsLe b c = true) : natsLe a c = true := by
  induction a generalizing b c with
  | nil => simp [natsLe]
  | cons x xs ih =>
    cases b with
    | nil => simp at hab
    | cons y ys =>
      cases c with
      | nil => simp at hbc
      | cons z zs =>
        simp only [natsLe] at h1 h2 ⊢
        by_cases hxy : x < y
        · by_cases hyz : y < z
          · simp [Nat.lt_trans hxy hyz]
          · by_cases hzy : z < y
            · simp [hyz, hzy] at h2
            · have hy : y = z := Nat.le_antisymm (Nat.not_lt.mp hzy) (Nat.not_lt.mp hyz)
              simp [hy ▸ hxy]
        · by_cases hyx : y < x
          · simp [hxy, hyx] at h1
          · have hx : x = y := Nat.le_antisymm (Nat.not_lt.mp hyx) (Nat.not_lt.mp hxy)
            subst hx
            simp only [Nat.lt_irrefl, if_false] at h1
            by_cases hxz : x < z
            · simp [hxz]
            · by_cases hzx : z < x
              · simp [hxz, hzx] at h2
              · have hz : x = z := Nat.le_antisymm (Nat.not_lt.mp hzx) (Nat.not_lt.mp hxz)
                subst hz
                simp only [Nat.lt_irrefl, if_false] at h2 ⊢
                exact ih ys zs (by simpa using hab) (by simpa using hbc) h1 h2

theorem dtLe_total (a b : Screening) : (dtLe a b || dtLe b a) = true :=
  natsLe_total _ _

theorem dtLe_trans (a b c : Screening) (h1 : dtLe a b = true)
    (h2 : dtLe b c = true) : dtLe a c = true :=
  natsLe_trans (a.date.toNats ++ a.time.toNats)
    (b.date.toNats ++ b.time.toNats) (c.date.toNats ++ c.time.toNats)
    (by simp [Date.toNats, Time.toNats]) (by simp [Date.toNats, Time.toNats])
    h1 h2

/-- C3: for every input candidate list, the final list produced by the
pipeline (double-feature merge, then deduplication, then the sort by
(date, time)) contains no two records sharing the identity tuple (title,
venue, date, time) — the md5 preimage of the identity hash — and is
sorted ascending by (date, time). -/
theorem C3_pipeline_no_duplicates_and_sorted :
    ∀ ss : List Screening,
      (pipeline_screenings ss).Pairwise (fun a b => dedupKey a ≠ dedupKey b)
      ∧ (pipeline_screenings ss).Pairwise (fun a b => dtLe a b = true) := by
  intro ss
  have hperm : (pipeline_screenings ss).Perm
      (deduplicate_screenings (merge_double_screenings ss)) :=
    List.mergeSort_perm _ dtLe
  constructor
  · have hkeys : ((((merge_double_screenings ss).foldl dedupStep
        []).map Prod.fst)).Nodup :=
      fold_keys_nodup _ [] (by simp)
    have hcons : KeyConsistent ((merge_double_screenings ss).foldl dedupStep []) :=
      fold_keyConsistent _ [] (by intro p hp; simp at hp)
    have hmapeq :
        (deduplicate_screenings (merge_double_screenings ss)).map dedupKey
          = ((merge_double_screenings ss).foldl dedupStep []).map Prod.fst := by
      unfold deduplicate_screenings
      rw [List.map_map]
      exact List.map_congr_left (fun p hp => hcons p hp)
    have hnodup :
        ((deduplicate_screenings (merge_double_screenings ss)).map dedupKey).Nodup := by
      rw [hmapeq]
      exact hkeys
    have hpair :
        (deduplicate_screenings (merge_double_screenings ss)).Pairwise
          (fun a b => dedupKey a ≠ dedupKey b) :=
      List.pairwise_map.mp hnodup
    exact (List.Perm.pairwise_iff (fun h e => h e.symm) hperm).mpr hpair
  · exact List.sorted_mergeSort
      (fun a b c => dtLe_trans a b c)
      (fun a b => dtLe_total a b)
      (deduplicate_screenings (merge_double_screenings ss))

/-- C5: when an uncaught exception escapes the pipeline, the job status
becomes "error", the `error` and `message` fields capture the exception
text, and no partial screenings are exposed: the serialization of any
job whose status is not "complete" carries no `screenings` (and no
`count`) key. -/
theorem C5_pipeline_error_no_partial_results :
    (∀ (job : JobStatus) (e : String),
      (run_do_scrape job (Except.error e)).status = "error"
      ∧ (run_do_scrape job (Except.error e)).error = some e
      ∧ (run_do_scrape job (Except.error e)).message = "Error: " ++ e
      ∧ (run_do_scrape job (Except.error e)).screenings = job.screenings)
    ∧ (∀ j : JobStatus, j.status ≠ "complete" →
        (serialize_job_status j).screenings = none
        ∧ (serialize_job_status j).count = none) := by
  constructor
  · intro job e
    exact ⟨rfl, rfl, rfl, rfl⟩
  · intro j h
    constructor
    · simp only [serialize_job_status]
      rw [if_neg (fun hc => h hc.1)]
    · simp only [serialize_job_status]
      rw [if_neg (fun hc => h hc.1)]

/-- Witness for C5: a concrete job hit by a concrete pipeline exception
ends in status "error" with the text captured, and its serialization
(status "error" ≠ "complete") exposes no screenings. -/
theorem C5_pipeline_error_no_partial_results_witness :
    ((run_do_scrape
        { job_id := "j1", status := "pending", progress := 0,
          message := "Starting scrape...", screenings := [], error := none }
        (Except.error "boom")).status = "error"
      ∧ (run_do_scrape
        { job_id := "j1", status := "pending", progress := 0,
          message := "Starting scrape...", screenings := [], error := none }
        (Except.error "boom")).error = some "boom"
      ∧ (run_do_scrape
        { job_id := "j1", status := "pending", progress := 0,
          message := "Starting scrape...", screenings := [], error := none }
        (Except.error "boom")).message = "Error: " ++ "boom"
      ∧ (run_do_scrape
        { job_id := "j1", status := "pending", progress := 0,
          message := "Starting scrape...", screenings := [], error := none }
        (Except.error "boom")).screenings = [])
    ∧ (serialize_job_status (run_do_scrape
        { job_id := "j1", status := "pending", progress := 0,
          message := "Starting scrape...", screenings := [], error := none }
        (Except.error "boom"))).screenings = none
    ∧ (serialize_job_status (run_do_scrape
        { job_id := "j1", status := "pending", progress := 0,
          message := "Starting scrape...", screenings := [], error := none }
        (Except.error "boom"))).count = none :=
  ⟨C5_pipeline_error_no_partial_results.1
      { job_id := "j1", status := "pending", progress := 0,
        message := "Starting scrape...", screenings := [], error := none }
      "boom",
   C5_pipeline_error_no_partial_results.2 _ (by decide)⟩

/-- C7: every Screening in the Coolidge parser's filtered output has a
start datetime strictly later than the clock reading taken when it was
constructed. -/
theorem C7_coolidge_filters_past_screenings :
    ∀ (cands : List (Screening × (Date × Time))) (s : Screening),
      s ∈ coolidge_keep_future cands →
      ∃ now, (s, now) ∈ cands ∧ dtLt now s.datetime_start = true := by
  intro cands
  induction cands with
  | nil => simp [coolidge_keep_future]
  | cons p rest ih =>
    intro s hs
    simp only [coolidge_keep_future, List.foldr_cons] at hs
    by_cases hp : dtLt p.2 p.1.datetime_start = true
    · rw [if_pos hp] at hs
      rcases List.mem_cons.mp hs with hs' | hs'
      · subst hs'
        exact ⟨p.2, List.mem_cons_self p rest, hp⟩
      · obtain ⟨now, hmem, hlt⟩ := ih s hs'
        exact ⟨now, List.mem_cons_of_mem p hmem, hlt⟩
    · rw [if_neg hp] at hs
      obtain ⟨now, hmem, hlt⟩ := ih s hs
      exact ⟨now, List.mem_cons_of_mem p hmem, hlt⟩

/-- Witness for C7: with one future and one already-past candidate, the
future one is in the output and the theorem produces its clock reading. -/
theorem C7_coolidge_filters_past_screenings_witness :
    ∃ now, (duneCoolidge, now)
        ∈ [(duneCoolidge, ((⟨2025, 6, 1⟩, ⟨18, 0, 0⟩) : Date × Time)),
           (duneSB, ((⟨2025, 6, 1⟩, ⟨20, 0, 0⟩) : Date × Time))]
      ∧ dtLt now duneCoolidge.datetime_start = true :=
  C7_coolidge_filters_past_screenings
    [(duneCoolidge, (⟨2025, 6, 1⟩, ⟨18, 0, 0⟩)),
     (duneSB, (⟨2025, 6, 1⟩, ⟨20, 0, 0⟩))]
    duneCoolidge (by decide)

/-- Counterexample to C6 as stated: for the HFA parser with configured
year 2024 (a leap year), header day February 29, and current month
October, the resulting month (2) is more than 6 months before the
current month (10), so the claim requires rolling to 2025 — but the code
keeps 2024-02-29, because `replace(year=2025)` raises `ValueError`
(2025-02-29 does not exist) and the exception handler swallows it. -/
theorem C6_counterexample_hfa_feb29 :
    rollCond 2 10 = true
    ∧ hfa_resolve_day 2024 2 29 10 = some ⟨2024, 2, 29⟩
    ∧ spec_resolve_year 2024 2 29 10 = ⟨2025, 2, 29⟩
    ∧ hfa_resolve_day 2024 2 29 10 ≠ some (spec_resolve_year 2024 2 29 10) := by
  decide

/-- C6 (amended): date-header year resolution assumes the configured
year unless the resulting month is more than 6 months before the current
month, in which case the date is rolled to the next year — without
exception for the Brattle and Screen Boston parsers (whose parsed
month/day is validated against year 1900 and hence never names Feb 29),
and for the HFA parser whenever the rolled date exists; when it does not
(Feb 29 of a leap configured year), HFA keeps the un-rolled date. -/
theorem C6_year_rollover_amended :
    (∀ year m d todayM : Nat, dateValid 1900 m d = true →
      brattle_resolve_header year m d todayM
        = some (spec_resolve_year year m d todayM))
    ∧ (∀ year m d todayM : Nat, dateValid 1900 m d = true →
      screen_boston_resolve_header year m d todayM
        = some (spec_resolve_year year m d todayM))
    ∧ (∀ year m d todayM : Nat, dateValid year m d = true →
      dateValid (year + 1) m d = true →
      hfa_resolve_day year m d todayM
        = some (spec_resolve_year year m d todayM))
    ∧ (∀ year m d todayM : Nat, dateValid year m d = true →
      dateValid (year + 1) m d = false → rollCond m todayM = true →
      hfa_resolve_day year m d todayM = some ⟨year, m, d⟩) := by
  refine ⟨?_, ?_, ?_, ?_⟩
  · intro year m d todayM h
    unfold brattle_resolve_header spec_resolve_year
    rw [if_pos h]
    split <;> rfl
  · intro year m d todayM h
    unfold screen_boston_resolve_header spec_resolve_year
    rw [if_pos h]
    split <;> rfl
  · intro year m d todayM h h1
    unfold hfa_resolve_day spec_resolve_year
    rw [if_pos h]
    split <;> simp [h1]
  · intro year m d todayM h h1 hroll
    unfold hfa_resolve_day
    rw [if_pos h, if_pos hroll, if_neg (by rw [h1]; exact Bool.false_ne_true)]

/-- Witness for the amended C6 at concrete inputs: a January header at
the Brattle in October rolls forward; the HFA Feb 29 header keeps the
un-rolled date. -/
theorem C6_year_rollover_amended_witness :
    brattle_resolve_header 2025 1 28 10
      = some (spec_resolve_year 2025 1 28 10)
    ∧ screen_boston_resolve_header 2025 1 28 10
      = some (spec_resolve_year 2025 1 28 10)
    ∧ hfa_resolve_day 2025 1 28 10
      = some (spec_resolve_year 2025 1 28 10)
    ∧ hfa_resolve_day 2024 2 29 10 = some ⟨2024, 2, 29⟩ :=
  ⟨C6_year_rollover_amended.1 2025 1 28 10 (by decide),
   C6_year_rollover_amended.2.1 2025 1 28 10 (by decide),
   C6_year_rollover_amended.2.2.1 2025 1 28 10 (by decide) (by decide),
   C6_year_rollover_amended.2.2.2 2024 2 29 10 (by decide) (by decide)
     (by decide)⟩

theorem natsLe_refl (a : List Nat) : natsLe a a = true := by
  induction a with
  | nil => rfl
  | cons x xs ih => simp [natsLe, Nat.lt_irrefl, ih]

theorem natsLt_natsLe {a b : List Nat} (h : natsLt a b = true) :
    natsLe a b = true := by
  induction a generalizing b with
  | nil => simp [natsLe]
  | cons x xs ih =>
    cases b with
    | nil => simp [natsLt] at h
    | cons y ys =>
      simp only [natsLt] at h
      simp only [natsLe]
      by_cases h1 : x < y
      · simp [h1]
      · by_cases h2 : y < x
        · simp [h1, h2] at h
        · simp only [h1, if_false, h2] at h ⊢
          exact ih h

theorem natsLe_false_of_natsLt {a b : List Nat} (h : natsLt a b = true) :
    natsLe b a = false := by
  induction a generalizing b with
  | nil =>
    cases b with
    | nil => simp [natsLt] at h
    | cons y ys => simp [natsLt] at h
  | cons x xs ih =>
    cases b with
    | nil => simp [natsLt] at h
    | cons y ys =>
      simp only [natsLt] at h
      simp only [natsLe]
      by_cases h1 : x < y
      · simp [h1, Nat.lt_asymm h1]
      · by_cases h2 : y < x
        · simp [h1, h2] at h
        · simp only [h1, if_false, h2, if_false] at h ⊢
          exact ih h

theorem natsLt_trans {a b c : List Nat} (h1 : natsLt a b = true)
    (h2 : natsLt b c = true) : natsLt a c = true := by
  induction a generalizing b c with
  | nil =>
    cases b with
    | nil => simp [natsLt] at h1
    | cons y ys =>
      cases c with
      | nil => simp [natsLt] at h2
      | cons z zs => simp [natsLt] at h1
  | cons x xs ih =>
    cases b with
    | nil => simp [natsLt] at h1
    | cons y ys =>
      cases c with
      | nil => simp [natsLt] at h2
      | cons z zs =>
        simp only [natsLt] at h1 h2 ⊢
        by_cases hxy : x < y
        · by_cases hyz : y < z
          · simp [Nat.lt_trans hxy hyz]
          · by_cases hzy : z < y
            · simp [hyz, hzy] at h2
            · have hy : y = z :=
                Nat.le_antisymm (Nat.not_lt.mp hzy) (Nat.not_lt.mp hyz)
              simp [hy ▸ hxy]
        · by_cases hyx : y < x
          · simp [hxy, hyx] at h1
          · have hx : x = y :=
              Nat.le_antisymm (Nat.not_lt.mp hyx) (Nat.not_lt.mp hxy)
            subst hx
            simp only [Nat.lt_irrefl, if_false] at h1
            by_cases hxz : x < z
            · simp [hxz]
            · by_cases hzx : z < x
              · simp [hxz, hzx] at h2
              · have hz : x = z :=
                  Nat.le_antisymm (Nat.not_lt.mp hzx) (Nat.not_lt.mp hxz)
                subst hz
                simp only [Nat.lt_irrefl, if_false] at h2 ⊢
                exact ih h1 h2

/-- Adding one day strictly increases the (year, month, day) order. -/
theorem nextDay_lt (d : Date) : natsLt d.toNats (nextDay d).toNats = true := by
  unfold nextDay
  by_cases h1 : d.day < daysInMonth d.year d.month
  · simp only [h1, if_true, Date.toNats, natsLt, Nat.lt_irrefl, if_false]
    simp [h1, Nat.lt_succ_self]
  · by_cases h2 : d.month < 12
    · simp only [h1, if_false, h2, if_true, Date.toNats, natsLt]
      simp [Nat.lt_irrefl, Nat.lt_succ_self]
    · simp only [h1, if_false, h2, Date.toNats, natsLt]
      simp [Nat.lt_succ_self]

theorem addDays_add (d : Date) (i k : Nat) :
    addDays d (i + k) = addDays (addDays d i) k := by
  induction k with
  | zero => rfl
  | succ k ih =>
    show addDays d (i + k + 1) = nextDay (addDays (addDays d i) k)
    rw [← ih]
    rfl

theorem dateLe_addDays (d : Date) (n : Nat) :
    dateLe d (addDays d n) = true := by
  induction n with
  | zero => exact natsLe_refl _
  | succ n ih =>
    have hlt : natsLt (addDays d n).toNats (addDays d (n + 1)).toNats = true :=
      nextDay_lt (addDays d n)
    exact natsLe_trans d.toNats (addDays d n).toNats (addDays d (n + 1)).toNats
      rfl rfl ih (natsLt_natsLe hlt)

theorem addDays_lt_of_lt (d : Date) {i j : Nat} (h : i < j) :
    natsLt (addDays d i).toNats (addDays d j).toNats = true := by
  obtain ⟨k, rfl⟩ : ∃ k, j = i + (k + 1) := ⟨j - i - 1, by omega⟩
  induction k with
  | zero => exact nextDay_lt (addDays d i)
  | succ k ih =>
    have hstep : natsLt (addDays d (i + (k + 1))).toNats
        (addDays d (i + (k + 2))).toNats = true :=
      nextDay_lt (addDays d (i + (k + 1)))
    exact natsLt_trans (ih (by omega)) hstep

/-- The while-loop from `start` to `start + n days` yields exactly the
n + 1 successive dates. -/
theorem date_range_go_spec (n : Nat) (start : Date) :
    date_range_go start (addDays start n)
      = (List.range (n + 1)).map (addDays start) := by
  induction n generalizing start with
  | zero =>
    rw [show addDays start 0 = start from rfl]
    rw [date_range_go]
    rw [if_pos (show dateLe start start = true from natsLe_refl _)]
    rw [date_range_go]
    rw [if_neg ?hne]
    case hne =>
      have := natsLe_false_of_natsLt (nextDay_lt start)
      show ¬ (natsLe (nextDay start).toNats start.toNats = true)
      rw [this]
      exact Bool.false_ne_true
    rfl
  | succ n ih =>
    rw [date_range_go]
    rw [if_pos (dateLe_addDays start (n + 1))]
    have hcomm : addDays start (n + 1) = addDays (nextDay start) n := by
      rw [show addDays start (n + 1) = addDays (addDays start 1) n from by
        rw [← addDays_add]
        rw [Nat.add_comm 1 n]]
      rfl
    rw [hcomm, ih (nextDay start)]
    conv_rhs => rw [List.range_succ_eq_map]
    simp only [List.map_cons, List.map_map]
    congr 1
    apply List.map_congr_left
    intro i _
    show addDays (nextDay start) i = addDays start (i + 1)
    rw [Nat.add_comm i 1, addDays_add]
    rfl

/-- C8: the configured date window is a finite, forward-only (strictly
ascending) sequence of calendar dates from `start_date` to
`start_date + days_ahead` inclusive of both ends: it equals the map of
`addDays start_date` over `0..days_ahead`, has `days_ahead + 1`
elements, contains both endpoints, stays within them, and is strictly
increasing. In particular start 2025-01-01 with `days_ahead = 2` yields
exactly [2025-01-01, 2025-01-02, 2025-01-03]. -/
theorem C8_date_window_inclusive :
    (∀ c : ScraperConfig,
      c.date_range = (List.range (c.days_ahead + 1)).map (addDays c.start_date))
    ∧ (∀ c : ScraperConfig, c.date_range.length = c.days_ahead + 1)
    ∧ (∀ c : ScraperConfig,
        c.start_date ∈ c.date_range ∧ c.end_date ∈ c.date_range)
    ∧ (∀ c : ScraperConfig, ∀ d ∈ c.date_range,
        dateLe c.start_date d = true ∧ dateLe d c.end_date = true)
    ∧ (∀ c : ScraperConfig,
        c.date_range.Pairwise (fun a b => natsLt a.toNats b.toNats = true))
    ∧ ScraperConfig.date_range { start_date := ⟨2025, 1, 1⟩, days_ahead := 2 }
        = [⟨2025, 1, 1⟩, ⟨2025, 1, 2⟩, ⟨2025, 1, 3⟩] := by
  have hmain : ∀ c : ScraperConfig,
      c.date_range = (List.range (c.days_ahead + 1)).map (addDays c.start_date) :=
    fun c => date_range_go_spec c.days_ahead c.start_date
  refine ⟨hmain, ?_, ?_, ?_, ?_, ?_⟩
  · intro c
    rw [hmain c]
    simp
  · intro c
    constructor
    · rw [hmain c]
      exact List.mem_map.mpr ⟨0, by simp, rfl⟩
    · rw [hmain c]
      exact List.mem_map.mpr ⟨c.days_ahead, by simp, rfl⟩
  · intro c d hd
    rw [hmain c] at hd
    obtain ⟨i, hi, rfl⟩ := List.mem_map.mp hd
    have hin : i ≤ c.days_ahead := by
      simpa [Nat.lt_succ_iff] using List.mem_range.mp hi
    constructor
    · exact dateLe_addDays c.start_date i
    · show dateLe (addDays c.start_date i) c.end_date = true
      unfold ScraperConfig.end_date
      rw [show c.days_ahead = i + (c.days_ahead - i) from by omega]
      rw [addDays_add]
      exact dateLe_addDays (addDays c.start_date i) (c.days_ahead - i)
  · intro c
    rw [hmain c]
    rw [List.pairwise_map]
    exact (List.pairwise_lt_range _).imp
      (fun hij => addDays_lt_of_lt c.start_date hij)
  · exact (hmain { start_date := ⟨2025, 1, 1⟩, days_ahead := 2 }).trans
      (by decide)

/-- Witness for C8: the bounds clause applied to the concrete window
start 2025-01-01, days_ahead 2 at the member date 2025-01-02, whose
membership is discharged by the concrete window value. -/
theorem C8_date_window_inclusive_witness :
    dateLe (⟨2025, 1, 1⟩ : Date) ⟨2025, 1, 2⟩ = true
    ∧ dateLe (⟨2025, 1, 2⟩ : Date)
        (ScraperConfig.end_date { start_date := ⟨2025, 1, 1⟩, days_ahead := 2 })
      = true :=
  C8_date_window_inclusive.2.2.2.1
    { start_date := ⟨2025, 1, 1⟩, days_ahead := 2 } ⟨2025, 1, 2⟩
    (by rw [C8_date_window_inclusive.2.2.2.2.2]; decide)

end CinemaCal

